import Mathlib

/-!
# Verification of the PyPTO IR transformation core

A shallow embedding of the PyPTO IR data model and of the transforms
`ConvertTensorToBlockOps`, the op-conversion registry, the `Identity` pass,
the `IncoreBlockOps` property verifier, and structural equality / hashing,
together with proofs of the specified properties.

Conventions of the embedding:
* C++ `shared_ptr` nodes become plain inductive values; pointer equality
  becomes value equality (the IR is immutable, so a pointer that is reused
  unchanged corresponds to an unchanged value).
* `Span` fields are omitted: they are `IgnoreField`s for structural
  comparison and no verified property mentions source locations.
* Fallible code (`INTERNAL_CHECK`, op-registry failures) is modelled with
  `Except String`.
-/

namespace PyPTO

/-! ## Data model (§3 of the spec; `pypto/ir/{type,expr,stmt,function,program}.h`) -/

/-- Element data types (`DataType`). -/
inductive DataType where
  | FP32 | FP16 | BF16 | INT8 | UINT8 | INT32 | INT64 | BOOL
deriving DecidableEq, Repr

/-- Memory spaces (`MemorySpace`). -/
inductive MemorySpace where
  | DDR | UB | L1 | L0A | L0B | L0C
deriving DecidableEq, Repr

/-- Function kinds (`FunctionType`): Opaque, Orchestration, InCore. -/
inductive FunctionType where
  | opaqueFn | orchestration | inCore
deriving DecidableEq, Repr

/-- The 23 concrete `BinaryExpr` subclasses, as a kind tag. -/
inductive BinKind where
  | add | sub | mul | floorDiv | floorMod | floatDiv | pow | min | max
  | eq | ne | lt | le | gt | ge | land | lor | lxor
  | bitAnd | bitOr | bitXor | bitShiftLeft | bitShiftRight
deriving DecidableEq, Repr

/-- The 5 concrete `UnaryExpr` subclasses, as a kind tag. -/
inductive UnKind where
  | abs | neg | not | bitNot | cast
deriving DecidableEq, Repr

/-- Dynamically typed kwarg values (`std::any` restricted to the closed set of
variants the spec names: enums, scalars, strings). -/
inductive AnyVal where
  | dt (d : DataType)
  | ms (m : MemorySpace)
  | int (n : Int)
  | str (s : String)
deriving DecidableEq, Repr

/-- A `Call`'s callee: a primitive `Op` or a `GlobalVar` function reference.
Both C++ classes carry only a name for comparison purposes. -/
inductive OpRef where
  | op (name : String)
  | globalVar (name : String)
deriving DecidableEq, Repr

mutual
/-- IR types (§3.1). `TensorType`/`TileType` shapes are ordered sequences of
expressions, as in the source (`TensorType::shape_ : std::vector<ExprPtr>`).
`FunctionType` (the type, not the function kind) is unused by the claims and
omitted; `VoidType` is `.void`, also standing in for a null `TypePtr`. -/
inductive IRType where
  | scalar (dtype : DataType)
  | tensor (shape : List Expr) (dtype : DataType) (memSpace : MemorySpace)
  | tile (shape : List Expr) (dtype : DataType) (memSpace : MemorySpace)
  | tuple (elements : List IRType)
  | void

/-- IR expressions (§3.2). `IterArg`, `MemRef` and `ConstFloat` play no role
in any claim and are omitted. `call` carries the computed result type
(`Call::result_type`), `.void` standing in for an absent one. -/
inductive Expr where
  | var (name : String) (ty : IRType)
  | constInt (value : Int) (dtype : DataType)
  | constBool (value : Bool)
  | makeTuple (elements : List Expr)
  | tupleGetItem (tup : Expr) (index : Nat)
  | call (op : OpRef) (args : List Expr) (kwargs : List (String × AnyVal)) (retTy : IRType)
  | binary (kind : BinKind) (left : Expr) (right : Expr) (dtype : DataType)
  | unary (kind : UnKind) (operand : Expr) (dtype : DataType)
end

mutual
/-- Boolean structural equality on types (hand-written: `deriving DecidableEq`
does not support this mutual nested family). -/
def IRType.beq : IRType → IRType → Bool
  | .scalar d1, .scalar d2 => d1 == d2
  | .tensor s1 d1 m1, .tensor s2 d2 m2 => Expr.beqList s1 s2 && d1 == d2 && m1 == m2
  | .tile s1 d1 m1, .tile s2 d2 m2 => Expr.beqList s1 s2 && d1 == d2 && m1 == m2
  | .tuple t1, .tuple t2 => IRType.beqList t1 t2
  | .void, .void => true
  | _, _ => false
termination_by structural a => a

def IRType.beqList : List IRType → List IRType → Bool
  | [], [] => true
  | a :: as, b :: bs => IRType.beq a b && IRType.beqList as bs
  | _, _ => false
termination_by structural a => a

def Expr.beq : Expr → Expr → Bool
  | .var n1 t1, .var n2 t2 => n1 == n2 && IRType.beq t1 t2
  | .constInt v1 d1, .constInt v2 d2 => v1 == v2 && d1 == d2
  | .constBool v1, .constBool v2 => v1 == v2
  | .makeTuple e1, .makeTuple e2 => Expr.beqList e1 e2
  | .tupleGetItem t1 i1, .tupleGetItem t2 i2 => Expr.beq t1 t2 && i1 == i2
  | .call o1 a1 k1 r1, .call o2 a2 k2 r2 =>
      o1 == o2 && Expr.beqList a1 a2 && k1 == k2 && IRType.beq r1 r2
  | .binary k1 l1 r1 d1, .binary k2 l2 r2 d2 =>
      k1 == k2 && Expr.beq l1 l2 && Expr.beq r1 r2 && d1 == d2
  | .unary k1 o1 d1, .unary k2 o2 d2 => k1 == k2 && Expr.beq o1 o2 && d1 == d2
  | _, _ => false
termination_by structural a => a

def Expr.beqList : List Expr → List Expr → Bool
  | [], [] => true
  | a :: as, b :: bs => Expr.beq a b && Expr.beqList as bs
  | _, _ => false
termination_by structural a => a
end

mutual
theorem irTypeBeq_refl : ∀ a : IRType, IRType.beq a a = true
  | .scalar _ => by simp [IRType.beq]
  | .tensor s _ _ => by simp [IRType.beq, exprBeqList_refl s]
  | .tile s _ _ => by simp [IRType.beq, exprBeqList_refl s]
  | .tuple t => by simp [IRType.beq, irTypeBeqList_refl t]
  | .void => rfl

theorem irTypeBeqList_refl : ∀ l : List IRType, IRType.beqList l l = true
  | [] => rfl
  | a :: as => by simp [IRType.beqList, irTypeBeq_refl a, irTypeBeqList_refl as]

theorem exprBeq_refl : ∀ a : Expr, Expr.beq a a = true
  | .var _ t => by simp [Expr.beq, irTypeBeq_refl t]
  | .constInt _ _ => by simp [Expr.beq]
  | .constBool _ => by simp [Expr.beq]
  | .makeTuple es => by simp [Expr.beq, exprBeqList_refl es]
  | .tupleGetItem t _ => by simp [Expr.beq, exprBeq_refl t]
  | .call _ a _ r => by simp [Expr.beq, exprBeqList_refl a, irTypeBeq_refl r]
  | .binary _ l r _ => by simp [Expr.beq, exprBeq_refl l, exprBeq_refl r]
  | .unary _ o _ => by simp [Expr.beq, exprBeq_refl o]

theorem exprBeqList_refl : ∀ l : List Expr, Expr.beqList l l = true
  | [] => rfl
  | a :: as => by simp [Expr.beqList, exprBeq_refl a, exprBeqList_refl as]
end

mutual
theorem irTypeBeq_sound : ∀ a b : IRType, IRType.beq a b = true → a = b
  | .scalar _, .scalar _, h => by
      simp only [IRType.beq, beq_iff_eq] at h; rw [h]
  | .tensor s1 _ _, .tensor s2 _ _, h => by
      simp only [IRType.beq, Bool.and_eq_true, beq_iff_eq] at h
      rw [exprBeqList_sound s1 s2 h.1.1, h.1.2, h.2]
  | .tile s1 _ _, .tile s2 _ _, h => by
      simp only [IRType.beq, Bool.and_eq_true, beq_iff_eq] at h
      rw [exprBeqList_sound s1 s2 h.1.1, h.1.2, h.2]
  | .tuple t1, .tuple t2, h => by
      simp only [IRType.beq] at h
      rw [irTypeBeqList_sound t1 t2 h]
  | .void, .void, _ => rfl
  | .scalar _, .tensor _ _ _, h => by simp [IRType.beq] at h
  | .scalar _, .tile _ _ _, h => by simp [IRType.beq] at h
  | .scalar _, .tuple _, h => by simp [IRType.beq] at h
  | .scalar _, .void, h => by simp [IRType.beq] at h
  | .tensor _ _ _, .scalar _, h => by simp [IRType.beq] at h
  | .tensor _ _ _, .tile _ _ _, h => by simp [IRType.beq] at h
  | .tensor _ _ _, .tuple _, h => by simp [IRType.beq] at h
  | .tensor _ _ _, .void, h => by simp [IRType.beq] at h
  | .tile _ _ _, .scalar _, h => by simp [IRType.beq] at h
  | .tile _ _ _, .tensor _ _ _, h => by simp [IRType.beq] at h
  | .tile _ _ _, .tuple _, h => by simp [IRType.beq] at h
  | .tile _ _ _, .void, h => by simp [IRType.beq] at h
  | .tuple _, .scalar _, h => by simp [IRType.beq] at h
  | .tuple _, .tensor _ _ _, h => by simp [IRType.beq] at h
  | .tuple _, .tile _ _ _, h => by simp [IRType.beq] at h
  | .tuple _, .void, h => by simp [IRType.beq] at h
  | .void, .scalar _, h => by simp [IRType.beq] at h
  | .void, .tensor _ _ _, h => by simp [IRType.beq] at h
  | .void, .tile _ _ _, h => by simp [IRType.beq] at h
  | .void, .tuple _, h => by simp [IRType.beq] at h

theorem irTypeBeqList_sound : ∀ a b : List IRType, IRType.beqList a b = true → a = b
  | [], [], _ => rfl
  | a :: as, b :: bs, h => by
      simp only [IRType.beqList, Bool.and_eq_true] at h
      rw [irTypeBeq_sound a b h.1, irTypeBeqList_sound as bs h.2]
  | [], _ :: _, h => by simp [IRType.beqList] at h
  | _ :: _, [], h => by simp [IRType.beqList] at h

theorem exprBeq_sound : ∀ a b : Expr, Expr.beq a b = true → a = b
  | .var n1 t1, .var n2 t2, h => by
      simp only [Expr.beq, Bool.and_eq_true, beq_iff_eq] at h
      rw [h.1, irTypeBeq_sound t1 t2 h.2]
  | .constInt _ _, .constInt _ _, h => by
      simp only [Expr.beq, Bool.and_eq_true, beq_iff_eq] at h
      rw [h.1, h.2]
  | .constBool _, .constBool _, h => by
      simp only [Expr.beq, beq_iff_eq] at h; rw [h]
  | .makeTuple e1, .makeTuple e2, h => by
      simp only [Expr.beq] at h
      rw [exprBeqList_sound e1 e2 h]
  | .tupleGetItem t1 _, .tupleGetItem t2 _, h => by
      simp only [Expr.beq, Bool.and_eq_true, beq_iff_eq] at h
      rw [exprBeq_sound t1 t2 h.1, h.2]
  | .call _ a1 _ r1, .call _ a2 _ r2, h => by
      simp only [Expr.beq, Bool.and_eq_true, beq_iff_eq] at h
      rw [h.1.1.1, exprBeqList_sound a1 a2 h.1.1.2, h.1.2, irTypeBeq_sound r1 r2 h.2]
  | .binary _ l1 r1 _, .binary _ l2 r2 _, h => by
      simp only [Expr.beq, Bool.and_eq_true, beq_iff_eq] at h
      rw [h.1.1.1, exprBeq_sound l1 l2 h.1.1.2, exprBeq_sound r1 r2 h.1.2, h.2]
  | .unary _ o1 _, .unary _ o2 _, h => by
      simp only [Expr.beq, Bool.and_eq_true, beq_iff_eq] at h
      rw [h.1.1, exprBeq_sound o1 o2 h.1.2, h.2]
  | .var _ _, .constInt _ _, h => by simp [Expr.beq] at h
  | .var _ _, .constBool _, h => by simp [Expr.beq] at h
  | .var _ _, .makeTuple _, h => by simp [Expr.beq] at h
  | .var _ _, .tupleGetItem _ _, h => by simp [Expr.beq] at h
  | .var _ _, .call _ _ _ _, h => by simp [Expr.beq] at h
  | .var _ _, .binary _ _ _ _, h => by simp [Expr.beq] at h
  | .var _ _, .unary _ _ _, h => by simp [Expr.beq] at h
  | .constInt _ _, .var _ _, h => by simp [Expr.beq] at h
  | .constInt _ _, .constBool _, h => by simp [Expr.beq] at h
  | .constInt _ _, .makeTuple _, h => by simp [Expr.beq] at h
  | .constInt _ _, .tupleGetItem _ _, h => by simp [Expr.beq] at h
  | .constInt _ _, .call _ _ _ _, h => by simp [Expr.beq] at h
  | .constInt _ _, .binary _ _ _ _, h => by simp [Expr.beq] at h
  | .constInt _ _, .unary _ _ _, h => by simp [Expr.beq] at h
  | .constBool _, .var _ _, h => by simp [Expr.beq] at h
  | .constBool _, .constInt _ _, h => by simp [Expr.beq] at h
  | .constBool _, .makeTuple _, h => by simp [Expr.beq] at h
  | .constBool _, .tupleGetItem _ _, h => by simp [Expr.beq] at h
  | .constBool _, .call _ _ _ _, h => by simp [Expr.beq] at h
  | .constBool _, .binary _ _ _ _, h => by simp [Expr.beq] at h
  | .constBool _, .unary _ _ _, h => by simp [Expr.beq] at h
  | .makeTuple _, .var _ _, h => by simp [Expr.beq] at h
  | .makeTuple _, .constInt _ _, h => by simp [Expr.beq] at h
  | .makeTuple _, .constBool _, h => by simp [Expr.beq] at h
  | .makeTuple _, .tupleGetItem _ _, h => by simp [Expr.beq] at h
  | .makeTuple _, .call _ _ _ _, h => by simp [Expr.beq] at h
  | .makeTuple _, .binary _ _ _ _, h => by simp [Expr.beq] at h
  | .makeTuple _, .unary _ _ _, h => by simp [Expr.beq] at h
  | .tupleGetItem _ _, .var _ _, h => by simp [Expr.beq] at h
  | .tupleGetItem _ _, .constInt _ _, h => by simp [Expr.beq] at h
  | .tupleGetItem _ _, .constBool _, h => by simp [Expr.beq] at h
  | .tupleGetItem _ _, .makeTuple _, h => by simp [Expr.beq] at h
  | .tupleGetItem _ _, .call _ _ _ _, h => by simp [Expr.beq] at h
  | .tupleGetItem _ _, .binary _ _ _ _, h => by simp [Expr.beq] at h
  | .tupleGetItem _ _, .unary _ _ _, h => by simp [Expr.beq] at h
  | .call _ _ _ _, .var _ _, h => by simp [Expr.beq] at h
  | .call _ _ _ _, .constInt _ _, h => by simp [Expr.beq] at h
  | .call _ _ _ _, .constBool _, h => by simp [Expr.beq] at h
  | .call _ _ _ _, .makeTuple _, h => by simp [Expr.beq] at h
  | .call _ _ _ _, .tupleGetItem _ _, h => by simp [Expr.beq] at h
  | .call _ _ _ _, .binary _ _ _ _, h => by simp [Expr.beq] at h
  | .call _ _ _ _, .unary _ _ _, h => by simp [Expr.beq] at h
  | .binary _ _ _ _, .var _ _, h => by simp [Expr.beq] at h
  | .binary _ _ _ _, .constInt _ _, h => by simp [Expr.beq] at h
  | .binary _ _ _ _, .constBool _, h => by simp [Expr.beq] at h
  | .binary _ _ _ _, .makeTuple _, h => by simp [Expr.beq] at h
  | .binary _ _ _ _, .tupleGetItem _ _, h => by simp [Expr.beq] at h
  | .binary _ _ _ _, .call _ _ _ _, h => by simp [Expr.beq] at h
  | .binary _ _ _ _, .unary _ _ _, h => by simp [Expr.beq] at h
  | .unary _ _ _, .var _ _, h => by simp [Expr.beq] at h
  | .unary _ _ _, .constInt _ _, h => by simp [Expr.beq] at h
  | .unary _ _ _, .constBool _, h => by simp [Expr.beq] at h
  | .unary _ _ _, .makeTuple _, h => by simp [Expr.beq] at h
  | .unary _ _ _, .tupleGetItem _ _, h => by simp [Expr.beq] at h
  | .unary _ _ _, .call _ _ _ _, h => by simp [Expr.beq] at h
  | .unary _ _ _, .binary _ _ _ _, h => by simp [Expr.beq] at h

theorem exprBeqList_sound : ∀ a b : List Expr, Expr.beqList a b = true → a = b
  | [], [], _ => rfl
  | a :: as, b :: bs, h => by
      simp only [Expr.beqList, Bool.and_eq_true] at h
      rw [exprBeq_sound a b h.1, exprBeqList_sound as bs h.2]
  | [], _ :: _, h => by simp [Expr.beqList] at h
  | _ :: _, [], h => by simp [Expr.beqList] at h
end

instance : DecidableEq IRType := fun a b =>
  decidable_of_iff (IRType.beq a b = true)
    ⟨irTypeBeq_sound a b, fun h => h ▸ irTypeBeq_refl a⟩

instance : DecidableEq Expr := fun a b =>
  decidable_of_iff (Expr.beq a b = true)
    ⟨exprBeq_sound a b, fun h => h ▸ exprBeq_refl a⟩

/-- A `Var` node viewed as a definition site (`VarPtr` in statement and
parameter positions). `Var` is also an expression; see `VarNode.toExpr`. -/
structure VarNode where
  name : String
  ty : IRType
deriving DecidableEq

/-- The expression view of a `Var`. -/
def VarNode.toExpr (v : VarNode) : Expr := .var v.name v.ty

/-- IR statements (§3.3). -/
inductive Stmt where
  | assign (var : VarNode) (value : Expr)
  | eval (e : Expr)
  | ret (values : List Expr)
  | ifS (cond : Expr) (thenBody : Stmt) (elseBody : Option Stmt)
  | forS (loopVar : VarNode) (start : Expr) (stop : Expr) (step : Expr) (body : Stmt)
  | seq (stmts : List Stmt)

mutual
/-- Boolean structural equality on statements (hand-written: nested
`List Stmt`/`Option Stmt` defeat `deriving DecidableEq`). -/
def Stmt.beq : Stmt → Stmt → Bool
  | .assign v1 e1, .assign v2 e2 => v1 == v2 && e1 == e2
  | .eval e1, .eval e2 => e1 == e2
  | .ret l1, .ret l2 => l1 == l2
  | .ifS c1 t1 e1, .ifS c2 t2 e2 => c1 == c2 && Stmt.beq t1 t2 && Stmt.beqOpt e1 e2
  | .forS v1 a1 b1 c1 s1, .forS v2 a2 b2 c2 s2 =>
      v1 == v2 && a1 == a2 && b1 == b2 && c1 == c2 && Stmt.beq s1 s2
  | .seq l1, .seq l2 => Stmt.beqList l1 l2
  | _, _ => false
termination_by structural a => a

def Stmt.beqList : List Stmt → List Stmt → Bool
  | [], [] => true
  | a :: as, b :: bs => Stmt.beq a b && Stmt.beqList as bs
  | _, _ => false
termination_by structural a => a

def Stmt.beqOpt : Option Stmt → Option Stmt → Bool
  | none, none => true
  | some a, some b => Stmt.beq a b
  | _, _ => false
termination_by structural a => a
end

mutual
theorem stmtBeq_refl : ∀ a : Stmt, Stmt.beq a a = true
  | .assign _ _ => by simp [Stmt.beq]
  | .eval _ => by simp [Stmt.beq]
  | .ret _ => by simp [Stmt.beq]
  | .ifS _ t e => by simp [Stmt.beq, stmtBeq_refl t, stmtBeqOpt_refl e]
  | .forS _ _ _ _ s => by simp [Stmt.beq, stmtBeq_refl s]
  | .seq l => by simp [Stmt.beq, stmtBeqList_refl l]

theorem stmtBeqList_refl : ∀ l : List Stmt, Stmt.beqList l l = true
  | [] => rfl
  | a :: as => by simp [Stmt.beqList, stmtBeq_refl a, stmtBeqList_refl as]

theorem stmtBeqOpt_refl : ∀ o : Option Stmt, Stmt.beqOpt o o = true
  | none => rfl
  | some a => stmtBeq_refl a
end

mutual
theorem stmtBeq_sound : ∀ a b : Stmt, Stmt.beq a b = true → a = b
  | .assign _ _, .assign _ _, h => by
      simp only [Stmt.beq, Bool.and_eq_true, beq_iff_eq] at h
      rw [h.1, h.2]
  | .eval _, .eval _, h => by
      simp only [Stmt.beq, beq_iff_eq] at h; rw [h]
  | .ret _, .ret _, h => by
      simp only [Stmt.beq, beq_iff_eq] at h; rw [h]
  | .ifS _ t1 e1, .ifS _ t2 e2, h => by
      simp only [Stmt.beq, Bool.and_eq_true, beq_iff_eq] at h
      rw [h.1.1, stmtBeq_sound t1 t2 h.1.2, stmtBeqOpt_sound e1 e2 h.2]
  | .forS _ _ _ _ s1, .forS _ _ _ _ s2, h => by
      simp only [Stmt.beq, Bool.and_eq_true, beq_iff_eq] at h
      rw [h.1.1.1.1, h.1.1.1.2, h.1.1.2, h.1.2, stmtBeq_sound s1 s2 h.2]
  | .seq l1, .seq l2, h => by
      simp only [Stmt.beq] at h
      rw [stmtBeqList_sound l1 l2 h]
  | .assign _ _, .eval _, h => by simp [Stmt.beq] at h
  | .assign _ _, .ret _, h => by simp [Stmt.beq] at h
  | .assign _ _, .ifS _ _ _, h => by simp [Stmt.beq] at h
  | .assign _ _, .forS _ _ _ _ _, h => by simp [Stmt.beq] at h
  | .assign _ _, .seq _, h => by simp [Stmt.beq] at h
  | .eval _, .assign _ _, h => by simp [Stmt.beq] at h
  | .eval _, .ret _, h => by simp [Stmt.beq] at h
  | .eval _, .ifS _ _ _, h => by simp [Stmt.beq] at h
  | .eval _, .forS _ _ _ _ _, h => by simp [Stmt.beq] at h
  | .eval _, .seq _, h => by simp [Stmt.beq] at h
  | .ret _, .assign _ _, h => by simp [Stmt.beq] at h
  | .ret _, .eval _, h => by simp [Stmt.beq] at h
  | .ret _, .ifS _ _ _, h => by simp [Stmt.beq] at h
  | .ret _, .forS _ _ _ _ _, h => by simp [Stmt.beq] at h
  | .ret _, .seq _, h => by simp [Stmt.beq] at h
  | .ifS _ _ _, .assign _ _, h => by simp [Stmt.beq] at h
  | .ifS _ _ _, .eval _, h => by simp [Stmt.beq] at h
  | .ifS _ _ _, .ret _, h => by simp [Stmt.beq] at h
  | .ifS _ _ _, .forS _ _ _ _ _, h => by simp [Stmt.beq] at h
  | .ifS _ _ _, .seq _, h => by simp [Stmt.beq] at h
  | .forS _ _ _ _ _, .assign _ _, h => by simp [Stmt.beq] at h
  | .forS _ _ _ _ _, .eval _, h => by simp [Stmt.beq] at h
  | .forS _ _ _ _ _, .ret _, h => by simp [Stmt.beq] at h
  | .forS _ _ _ _ _, .ifS _ _ _, h => by simp [Stmt.beq] at h
  | .forS _ _ _ _ _, .seq _, h => by simp [Stmt.beq] at h
  | .seq _, .assign _ _, h => by simp [Stmt.beq] at h
  | .seq _, .eval _, h => by simp [Stmt.beq] at h
  | .seq _, .ret _, h => by simp [Stmt.beq] at h
  | .seq _, .ifS _ _ _, h => by simp [Stmt.beq] at h
  | .seq _, .forS _ _ _ _ _, h => by simp [Stmt.beq] at h

theorem stmtBeqList_sound : ∀ a b : List Stmt, Stmt.beqList a b = true → a = b
  | [], [], _ => rfl
  | a :: as, b :: bs, h => by
      simp only [Stmt.beqList, Bool.and_eq_true] at h
      rw [stmtBeq_sound a b h.1, stmtBeqList_sound as bs h.2]
  | [], _ :: _, h => by simp [Stmt.beqList] at h
  | _ :: _, [], h => by simp [Stmt.beqList] at h

theorem stmtBeqOpt_sound : ∀ a b : Option Stmt, Stmt.beqOpt a b = true → a = b
  | none, none, _ => rfl
  | some a, some b, h => by rw [stmtBeq_sound a b h]
  | none, some _, h => by simp [Stmt.beqOpt] at h
  | some _, none, h => by simp [Stmt.beqOpt] at h
end

instance : DecidableEq Stmt := fun a b =>
  decidable_of_iff (Stmt.beq a b = true)
    ⟨stmtBeq_sound a b, fun h => h ▸ stmtBeq_refl a⟩

/-- Functions (§3.4): name, ordered parameters, return types, body and kind. -/
structure Function where
  name : String
  params : List VarNode
  returnTypes : List IRType
  body : Stmt
  funcType : FunctionType
deriving DecidableEq

/-- Programs (§3.4): an insertion-ordered `GlobalVar → Function` mapping.
`GlobalVar` keys carry only the function name, so the mapping is modelled as
the ordered list of functions (names inside). -/
structure Program where
  functions : List Function
  name : String
deriving DecidableEq

mutual
/-- `Expr::GetType`: the type carried or computed by each expression node.
`.void` stands in for the null/unknown type. -/
def Expr.getType : Expr → IRType
  | .var _ ty => ty
  | .constInt _ d => .scalar d
  | .constBool _ => .scalar .BOOL
  | .makeTuple es => .tuple (Expr.getTypeList es)
  | .tupleGetItem t i =>
      match t.getType with
      | .tuple els => els.getD i .void
      | _ => .void
  | .call _ _ _ rty => rty
  | .binary _ _ _ d => .scalar d
  | .unary _ _ d => .scalar d
termination_by structural a => a

def Expr.getTypeList : List Expr → List IRType
  | [] => []
  | e :: es => e.getType :: Expr.getTypeList es
termination_by structural a => a
end

/-- `As<TensorType>(ty) != nullptr`. -/
def IRType.isTensorTy : IRType → Bool
  | .tensor _ _ _ => true
  | _ => false

/-- `As<TileType>(ty) != nullptr`. -/
def IRType.isTileTy : IRType → Bool
  | .tile _ _ _ => true
  | _ => false

/-- Insert-or-replace on an association list: the behaviour of
`std::unordered_map::operator[]` assignment, keeping first-insertion order. -/
def assocInsert {β : Type} : List (String × β) → String → β → List (String × β)
  | [], name, v => [(name, v)]
  | (k, w) :: rest, name, v =>
      if k = name then (k, v) :: rest else (k, w) :: assocInsert rest name v

/-- Lookup on an association list (`std::unordered_map::find`). -/
def assocLookup {β : Type} : List (String × β) → String → Option β
  | [], _ => none
  | (k, v) :: rest, name => if k = name then some v else assocLookup rest name

/-! ## Op registry (§4.1)

`OpRegistry` is declared in `pypto/ir/op_registry.h`; its implementation is
not part of the sources, so it is modelled from the spec. -/

/-- Modelled from the spec: an `OpEntry` of the op registry — category tag and
result-type inference rule (§4.1). Default kwargs of the ops used here are
empty, so the kwargs-merge step of `Create` is the identity and is omitted. -/
structure OpEntry where
  category : String
  inferResultType : List Expr → List (String × AnyVal) → Option IRType

/-- Modelled from the spec: result type of `block.load(tensor, offsets, shape,
target_memory=…)` — the `TileType` with the tensor's shape and dtype in the
target memory space (§4.9 step 1, glossary "Tile"). -/
def inferBlockLoad (args : List Expr) (kwargs : List (String × AnyVal)) : Option IRType :=
  match args with
  | [p, _, _] =>
      match p.getType, assocLookup kwargs "target_memory" with
      | .tensor shape dtype _, some (.ms m) => some (.tile shape dtype m)
      | _, _ => none
  | _ => none

/-- Modelled from the spec: result type of `block.store(tile, offsets, shape,
out_tensor)` — the output tensor's type (§4.9 step 3: the store result replaces
a `TensorType` return value). -/
def inferBlockStore (args : List Expr) (_kwargs : List (String × AnyVal)) : Option IRType :=
  match args with
  | [t, _, _, out] =>
      match t.getType with
      | .tile _ _ _ => some out.getType
      | _ => none
  | _ => none

/-- Modelled from the spec: result type of `tensor.create(make_tuple(shape),
dtype=…)` — a DDR tensor of that shape and dtype (§4.9 phase 2 step 1). -/
def inferTensorCreate (args : List Expr) (kwargs : List (String × AnyVal)) : Option IRType :=
  match args, assocLookup kwargs "dtype" with
  | [.makeTuple shape], some (.dt d) => some (.tensor shape d .DDR)
  | _, _ => none

/-- Modelled from the spec: result type of an elementwise op — the type of its
first argument (tensor in / tensor out, tile in / tile out). -/
def inferFirstArg (args : List Expr) (_kwargs : List (String × AnyVal)) : Option IRType :=
  match args with
  | a :: _ => some a.getType
  | [] => none

/-- Modelled from the spec: the process-wide `OpRegistry` contents for the ops
the verified passes touch — the thirteen convertible `tensor.*` ops plus
`tensor.create` (category `"TensorOp"`), and their `block.*` targets plus
`block.load`/`block.store` (category `"BlockOp"`). -/
def opRegistry (name : String) : Option OpEntry :=
  if name = "block.load" then some ⟨"BlockOp", inferBlockLoad⟩
  else if name = "block.store" then some ⟨"BlockOp", inferBlockStore⟩
  else if name = "tensor.create" then some ⟨"TensorOp", inferTensorCreate⟩
  else if name ∈ ["tensor.add", "tensor.sub", "tensor.mul", "tensor.div",
      "tensor.maximum", "tensor.exp", "tensor.cast", "tensor.reshape",
      "tensor.transpose", "tensor.add_scalar", "tensor.sub_scalar",
      "tensor.mul_scalar", "tensor.div_scalar"] then
    some ⟨"TensorOp", inferFirstArg⟩
  else if name ∈ ["block.add", "block.sub", "block.mul", "block.div",
      "block.maximum", "block.exp", "block.cast", "block.reshape",
      "block.transpose", "block.adds", "block.subs", "block.muls",
      "block.divs"] then
    some ⟨"BlockOp", inferFirstArg⟩
  else none

/-- `OpRegistry::IsRegistered`. -/
def opIsRegistered (name : String) : Bool := (opRegistry name).isSome

/-- `GetEntry(name).GetOpCategory()` as used by the verifier. -/
def opCategory (name : String) : Option String := (opRegistry name).map (·.category)

/-- Modelled from the spec: `OpRegistry::Create(name, args, kwargs)` — looks
up the entry, computes the result type and returns a new `Call`; fails with
`UnknownOp` / `TypeMismatch` (§4.1). -/
def opCreate (name : String) (args : List Expr) (kwargs : List (String × AnyVal)) :
    Except String Expr :=
  match opRegistry name with
  | none => .error ("UnknownOp: " ++ name)
  | some entry =>
      match entry.inferResultType args kwargs with
      | none => .error ("TypeMismatch: " ++ name)
      | some ty => .ok (.call (.op name) args kwargs ty)

/-! ## Op-conversion registry (`op_conversion_registry.{h,cpp}`, §4.2) -/

/-- `ConversionResult`: prologue statements plus the result expression. -/
structure ConversionResult where
  prologue : List Stmt
  result : Expr
deriving DecidableEq

/-- A stored conversion rule. `RegisterSimple` stores a closure capturing the
target op name; it is defunctionalized here as `.simple toOp`. `RegisterCustom`
stores an arbitrary function (`.custom`). -/
inductive ConversionFunc where
  | simple (toOp : String)
  | custom (f : List Expr → List (String × AnyVal) → Except String ConversionResult)

/-- Invoking a stored `ConversionFunc`. The `.simple` case is the closure
synthesized by `RegisterSimple`: call `OpRegistry::Create` on the target op
(3-argument overload when kwargs are empty) and wrap the call with an empty
prologue. -/
def ConversionFunc.apply : ConversionFunc → List Expr → List (String × AnyVal) →
    Except String ConversionResult
  | .simple toOp, args, kwargs =>
      (if kwargs.isEmpty then opCreate toOp args [] else opCreate toOp args kwargs).map
        (fun c => { prologue := [], result := c })
  | .custom f, args, kwargs => f args kwargs

/-- The conversion table `conversions_ : unordered_map<string, ConversionFunc>`. -/
abbrev ConvRegistry : Type := List (String × ConversionFunc)

/-- `OpConversionRegistry::RegisterSimple` — `conversions_[from_op] = λ…`. -/
def registerSimple (reg : ConvRegistry) (fromOp toOp : String) : ConvRegistry :=
  assocInsert reg fromOp (.simple toOp)

/-- `OpConversionRegistry::RegisterCustom` — `conversions_[from_op] = func`. -/
def registerCustom (reg : ConvRegistry) (fromOp : String)
    (f : List Expr → List (String × AnyVal) → Except String ConversionResult) : ConvRegistry :=
  assocInsert reg fromOp (.custom f)

/-- `OpConversionRegistry::Lookup` — `nullptr` becomes `none`. -/
def convLookup (reg : ConvRegistry) (name : String) : Option ConversionFunc :=
  assocLookup reg name

/-- `OpConversionRegistry::HasConversion`. -/
def hasConversion (reg : ConvRegistry) (name : String) : Bool :=
  (convLookup reg name).isSome

/-- The registry contents right after the `OpConversionRegistry` constructor:
the thirteen baseline simple mappings, registered in constructor order. -/
def defaultConvRegistry : ConvRegistry :=
  registerSimple (registerSimple (registerSimple (registerSimple (registerSimple
    (registerSimple (registerSimple (registerSimple (registerSimple
      (registerSimple (registerSimple (registerSimple (registerSimple
        ([] : ConvRegistry)
        "tensor.add" "block.add") "tensor.sub" "block.sub")
        "tensor.mul" "block.mul") "tensor.div" "block.div")
        "tensor.maximum" "block.maximum") "tensor.add_scalar" "block.adds")
        "tensor.sub_scalar" "block.subs") "tensor.mul_scalar" "block.muls")
        "tensor.div_scalar" "block.divs") "tensor.exp" "block.exp")
        "tensor.cast" "block.cast") "tensor.reshape" "block.reshape")
        "tensor.transpose" "block.transpose"

/-! ## `SubstituteExpr` (`convert_tensor_to_block_ops_pass.cpp` 69–137) -/

/-- The tensor-variable → tile-variable substitution map
(`unordered_map<string, VarPtr>`). -/
abbrev VarMap : Type := List (String × VarNode)

mutual
/-- `SubstituteExpr`: replace `Var` references through the name-keyed map,
recursing into `Call`, `MakeTuple` and `TupleGetItemExpr`. `BinaryExpr` /
`UnaryExpr` operands are only checked: an operand that substitution would
change trips an `INTERNAL_CHECK` (scalar arithmetic must not reference
tensor/tile variables); there is no rebuild branch for them. Leaves are
returned as-is. The source's pointer-identity "changed" tests become value
equality tests. -/
def substExpr (varMap : VarMap) : Expr → Except String Expr
  | .var n ty =>
      match assocLookup varMap n with
      | some v => .ok v.toExpr
      | none => .ok (.var n ty)
  | .call op args kwargs rty => do
      let newArgs ← substExprList varMap args
      .ok (.call op newArgs kwargs rty)
  | .makeTuple es => do
      let newEs ← substExprList varMap es
      .ok (.makeTuple newEs)
  | .tupleGetItem t i => do
      let newT ← substExpr varMap t
      .ok (.tupleGetItem newT i)
  | .binary k l r d => do
      let newL ← substExpr varMap l
      let newR ← substExpr varMap r
      if newL = l ∧ newR = r then .ok (.binary k l r d)
      else .error "Internal error: BinaryExpr operand substitution not supported"
  | .unary k o d => do
      let newO ← substExpr varMap o
      if newO = o then .ok (.unary k o d)
      else .error "Internal error: UnaryExpr operand substitution not supported"
  | .constInt v d => .ok (.constInt v d)
  | .constBool b => .ok (.constBool b)
termination_by structural a => a

def substExprList (varMap : VarMap) : List Expr → Except String (List Expr)
  | [] => .ok []
  | e :: es => do
      let e' ← substExpr varMap e
      let es' ← substExprList varMap es
      .ok (e' :: es')
termination_by structural a => a
end

/-! ## `TransformIncoreFunction` (`convert_tensor_to_block_ops_pass.cpp` 150–322) -/

/-- `IncoreTransformResult`: transformed function plus the number of added
output parameters. -/
structure IncoreTransformResult where
  func : Function
  numAddedOutputs : Nat
deriving DecidableEq

/-- `MakeZeroOffsets`: a `MakeTuple` of `ndim` INT64 zeros. -/
def makeZeroOffsets (ndim : Nat) : Expr :=
  .makeTuple (List.replicate ndim (.constInt 0 .INT64))

/-- `MakeShapeTuple`: a `MakeTuple` of the shape expressions. -/
def makeShapeTuple (shape : List Expr) : Expr := .makeTuple shape

/-- Flatten a body into a statement list (`SeqStmts` unwrapped, any other
statement as a singleton) — the pattern both phases use. -/
def flattenBody : Stmt → List Stmt
  | .seq ss => ss
  | s => [s]

/-- Phase-1 load prologue, one parameter (lines 162–180): `TensorType`
parameters get `p_tile = block.load(p, zeros, shape, target_memory=UB)` and
a `tensor_to_tile` entry; other parameters pass through. -/
def incoreLoadStep (st : List Stmt × VarMap) (p : VarNode) :
    Except String (List Stmt × VarMap) :=
  match p.ty with
  | .tensor shape _ _ => do
      let loadCall ← opCreate "block.load"
        [p.toExpr, makeZeroOffsets shape.length, makeShapeTuple shape]
        [("target_memory", .ms .UB)]
      let tileVar : VarNode := ⟨p.name ++ "_tile", loadCall.getType⟩
      .ok (st.1 ++ [.assign tileVar loadCall], assocInsert st.2 p.name tileVar)
  | _ => .ok st

/-- State of the phase-2 body walk: emitted statements, the
`tensor_to_tile` map, and the last `ReturnStmt`'s values if one was seen. -/
structure IncoreBodyState where
  newStmts : List Stmt
  tensorToTile : VarMap
  returnValues : Option (List Expr)
deriving DecidableEq

/-- The shared keep-or-substitute branch of the body walk (lines 206–247):
substitute variables in the assigned value; if anything changed, bind a fresh
variable of the substituted type and extend the map, else keep the statement. -/
def incoreSubstKeep (st : IncoreBodyState) (v : VarNode) (value : Expr) (stmt : Stmt) :
    Except String IncoreBodyState := do
  let newValue ← substExpr st.tensorToTile value
  if newValue ≠ value then
    let newVar : VarNode := ⟨v.name, newValue.getType⟩
    .ok { st with
          newStmts := st.newStmts ++ [.assign newVar newValue],
          tensorToTile := assocInsert st.tensorToTile v.name newVar }
  else .ok { st with newStmts := st.newStmts ++ [stmt] }

/-- One statement of the phase-2 body walk (lines 193–269). `ReturnStmt` is
remembered (last one wins) and not emitted; an `AssignStmt` whose value is an
op call with a registered conversion is expanded through the conversion
(prologue, then `v_tile = result`); every other statement goes through
`incoreSubstKeep` or passes through unchanged. -/
def incoreBodyStep (convReg : ConvRegistry) (st : IncoreBodyState) (stmt : Stmt) :
    Except String IncoreBodyState :=
  match stmt with
  | .ret vals => .ok { st with returnValues := some vals }
  | .assign v value =>
      match value with
      | .call (.globalVar g) args kwargs rty =>
          incoreSubstKeep st v (.call (.globalVar g) args kwargs rty) stmt
      | .call (.op opName) args kwargs rty =>
          match convLookup convReg opName with
          | none => incoreSubstKeep st v (.call (.op opName) args kwargs rty) stmt
          | some conv => do
              let substArgs ← substExprList st.tensorToTile args
              let res ← conv.apply substArgs kwargs
              let tileVar : VarNode := ⟨v.name ++ "_tile", res.result.getType⟩
              .ok { newStmts := st.newStmts ++ res.prologue ++ [.assign tileVar res.result],
                    tensorToTile := assocInsert st.tensorToTile v.name tileVar,
                    returnValues := st.returnValues : IncoreBodyState }
      | _ => incoreSubstKeep st v value stmt
  | _ => .ok { st with newStmts := st.newStmts ++ [stmt] }

/-- State of the phase-3 store epilogue walk over the return values. -/
structure IncoreEpilogueState where
  newStmts : List Stmt
  newParams : List VarNode
  newReturnTypes : List IRType
  newReturnExprs : List Expr
  numAddedOutputs : Nat
  index : Nat
deriving DecidableEq

/-- Phase 3, one return value (lines 279–312): a tile-typed value gets an
appended `out_k : TensorType` parameter (its type the function's declared
return type, which must be a `TensorType` — `INTERNAL_CHECK`) and a
`block.store`; other values pass through. An out-of-range declared-return-type
index (undefined behaviour in C++) is folded into the same internal check. -/
def incoreReturnStep (returnTypes : List IRType) (t2t : VarMap)
    (st : IncoreEpilogueState) (v : Expr) : Except String IncoreEpilogueState := do
  let retExpr ← substExpr t2t v
  match retExpr.getType with
  | .tile shape _ _ =>
      match returnTypes[st.index]? with
      | some (.tensor ts td tm) =>
          let outName := "out_" ++ toString st.numAddedOutputs
          let outParam : VarNode := ⟨outName, .tensor ts td tm⟩
          let storeCall ← opCreate "block.store"
            [retExpr, makeZeroOffsets shape.length, makeShapeTuple shape, outParam.toExpr] []
          let storeVar : VarNode := ⟨outName, storeCall.getType⟩
          .ok { newStmts := st.newStmts ++ [.assign storeVar storeCall],
                newParams := st.newParams ++ [outParam],
                newReturnTypes := st.newReturnTypes ++ [storeCall.getType],
                newReturnExprs := st.newReturnExprs ++ [storeVar.toExpr],
                numAddedOutputs := st.numAddedOutputs + 1,
                index := st.index + 1 : IncoreEpilogueState }
      | _ => .error "Internal error: return type should be TensorType"
  | _ =>
      .ok { st with
            newReturnTypes := st.newReturnTypes ++ [retExpr.getType],
            newReturnExprs := st.newReturnExprs ++ [retExpr],
            index := st.index + 1 }

/-- `TransformIncoreFunction`: load prologue over the parameters, body walk,
`INTERNAL_CHECK` that a return statement was seen, store epilogue, then the
rebuilt `SeqStmts` body ending in the rebuilt `ReturnStmt` and the InCore
function with appended output parameters. -/
def transformIncoreFunction (convReg : ConvRegistry) (func : Function) :
    Except String IncoreTransformResult := do
  let loads ← func.params.foldlM incoreLoadStep ([], [])
  let st ← (flattenBody func.body).foldlM (incoreBodyStep convReg)
    { newStmts := loads.1, tensorToTile := loads.2, returnValues := none }
  match st.returnValues with
  | none => .error "Internal error: InCore function has no return statement"
  | some vals => do
      let ep ← vals.foldlM (incoreReturnStep func.returnTypes st.tensorToTile)
        { newStmts := st.newStmts,
          newParams := func.params,
          newReturnTypes := [],
          newReturnExprs := [],
          numAddedOutputs := 0,
          index := 0 }
      .ok { func := { name := func.name,
                      params := ep.newParams,
                      returnTypes := ep.newReturnTypes,
                      body := .seq (ep.newStmts ++ [.ret ep.newReturnExprs]),
                      funcType := .inCore },
            numAddedOutputs := ep.numAddedOutputs : IncoreTransformResult }

/-! ## `UpdateCallSites` (`convert_tensor_to_block_ops_pass.cpp` 336–480) -/

/-- State of the call-site walk: emitted statements, variable substitutions,
and whether anything changed. -/
structure CallSiteState where
  newStmts : List Stmt
  varMap : VarMap
  changed : Bool
deriving DecidableEq

/-- The repeated keep-or-rebind pattern of `UpdateCallSites` (lines 381–416):
if substitution changed the assigned value, bind a fresh variable of the new
value's type, record the substitution and mark the function changed; else keep
the original statement. -/
def callSiteKeep (st : CallSiteState) (v : VarNode) (value0 value : Expr) (stmt : Stmt) :
    CallSiteState :=
  if value ≠ value0 then
    { newStmts := st.newStmts ++ [.assign ⟨v.name, value.getType⟩ value],
      varMap := assocInsert st.varMap v.name ⟨v.name, value.getType⟩,
      changed := true : CallSiteState }
  else { st with newStmts := st.newStmts ++ [stmt] }

/-- Lines 430–444: one `AssignStmt(out_i, tensor.create(make_tuple(shape),
dtype=dtype))` per added output parameter, left to right, failing the internal
check when an output parameter is not tensor-typed. Returns each created
statement with its `out_i` variable. -/
def buildOutputCreates : List VarNode → Nat → Except String (List (Stmt × VarNode))
  | [], _ => .ok []
  | p :: rest, i =>
      match p.ty with
      | .tensor shape dtype _ => do
          let createCall ← opCreate "tensor.create" [makeShapeTuple shape] [("dtype", .dt dtype)]
          let outVar : VarNode := ⟨"out_" ++ toString i, createCall.getType⟩
          let others ← buildOutputCreates rest (i + 1)
          .ok ((.assign outVar createCall, outVar) :: others)
      | _ => .error "Internal error: output param is not TensorType"

/-- Lines 451–458: the replacement call's return type — none (void) for zero
transformed return types, the single type for one, a `TupleType` otherwise. -/
def newCallReturnType : List IRType → Option IRType
  | [] => none
  | [t] => some t
  | ts => some (.tuple ts)

/-- The ternary at line 378: `var_map.empty() ? assign->value_ :
SubstituteExpr(assign->value_, var_map)`. -/
def callSiteValue (st : CallSiteState) (value0 : Expr) : Except String Expr :=
  if st.varMap.isEmpty then pure value0 else substExpr st.varMap value0

/-- One statement of the call-site walk (lines 355–471). Return statements
get substitutions applied (when the map is nonempty); an assignment whose
(substituted) value calls a transformed InCore function with added outputs is
rewritten — `tensor.create` buffers, appended arguments, recomputed return
type (a null C++ result type becomes `.void`); everything else goes through
`callSiteKeep` or passes through unchanged. -/
def updateCallSitesStep (addedOutputs : List (String × Nat))
    (transformed : List (String × Function)) (st : CallSiteState) (stmt : Stmt) :
    Except String CallSiteState :=
  match stmt with
  | .ret vals =>
      if st.varMap.isEmpty then .ok { st with newStmts := st.newStmts ++ [stmt] }
      else do
        let newVals ← substExprList st.varMap vals
        .ok { st with newStmts := st.newStmts ++ [.ret newVals] }
  | .assign v value0 => do
      let value ← callSiteValue st value0
      match value with
      | .call (.globalVar gname) args kwargs rty =>
          match assocLookup addedOutputs gname with
          | none => .ok (callSiteKeep st v value0 (.call (.globalVar gname) args kwargs rty) stmt)
          | some numOutputs =>
              if numOutputs = 0 then
                .ok (callSiteKeep st v value0 (.call (.globalVar gname) args kwargs rty) stmt)
              else
                match assocLookup transformed gname with
                | none => .error "Internal error: transformed InCore function not found"
                | some incoreFunc => do
                    let origParamCount := incoreFunc.params.length - numOutputs
                    let builds ← buildOutputCreates (incoreFunc.params.drop origParamCount) 0
                    let newArgs := args ++ builds.map (fun b => b.2.toExpr)
                    let newRetTy := newCallReturnType incoreFunc.returnTypes
                    let newVar : VarNode := ⟨v.name, newRetTy.getD .void⟩
                    .ok { newStmts := st.newStmts ++ builds.map (fun b => b.1) ++
                            [.assign newVar (.call (.globalVar gname) newArgs kwargs
                              (newRetTy.getD .void))],
                          varMap := assocInsert st.varMap v.name newVar,
                          changed := true : CallSiteState }
      | _ => .ok (callSiteKeep st v value0 value stmt)
  | _ => .ok { st with newStmts := st.newStmts ++ [stmt] }

/-- `UpdateCallSites`: walk the (flat) top-level statements; if nothing
changed return the function unchanged, else rebuild the body. -/
def updateCallSites (addedOutputs : List (String × Nat))
    (transformed : List (String × Function)) (func : Function) : Except String Function := do
  let st ← (flattenBody func.body).foldlM (updateCallSitesStep addedOutputs transformed)
    { newStmts := [], varMap := [], changed := false }
  if st.changed then .ok { func with body := .seq st.newStmts }
  else .ok func

/-! ## The `ConvertTensorToBlockOps` program pass (lines 486–518) -/

/-- Phase 1, one function: transform InCore functions, recording
`name → num_added_outputs` and `name → transformed function`; keep others. -/
def ctbPhase1Step (convReg : ConvRegistry)
    (st : List Function × List (String × Nat) × List (String × Function)) (f : Function) :
    Except String (List Function × List (String × Nat) × List (String × Function)) :=
  if f.funcType = .inCore then do
    let r ← transformIncoreFunction convReg f
    .ok (st.1 ++ [r.func], assocInsert st.2.1 f.name r.numAddedOutputs,
         assocInsert st.2.2 f.name r.func)
  else .ok (st.1 ++ [f], st.2.1, st.2.2)

/-- The `ConvertTensorToBlockOps` pass body: phase 1 over all functions in
program order, then phase 2 (`UpdateCallSites`) over the non-InCore ones,
preserving function order. The conversion registry is passed explicitly
(the singleton state at the time the pass runs). -/
def convertTensorToBlockOps (convReg : ConvRegistry) (p : Program) : Except String Program := do
  let ph1 ← p.functions.foldlM (ctbPhase1Step convReg) ([], [], [])
  let fs2 ← ph1.1.mapM (fun f =>
    if f.funcType ≠ .inCore then updateCallSites ph1.2.1 ph1.2.2 f else .ok f)
  .ok { functions := fs2, name := p.name }

/-! ## The `Identity` pass (`identity_pass.cpp`) -/

/-- The per-function transform of `pass::Identity`: appends `"_identity"` to
the function name and rebuilds the function with the same params, return
types and body. The source calls the `Function` constructor without a
`func_type` argument; the constructor default (not in the sources) is
modelled from the spec's enumeration order as Opaque. -/
def identityTransform (f : Function) : Function :=
  { name := f.name ++ "_identity", params := f.params, returnTypes := f.returnTypes,
    body := f.body, funcType := .opaqueFn }

/-- Modelled from the spec: the `CreateFunctionPass` adapter (§4.6) applies
the transform to every function, preserving insertion order; `identityPass`
is it applied to `identityTransform`. -/
def identityPass (p : Program) : Program :=
  { functions := p.functions.map identityTransform, name := p.name }

/-! ## `IncoreBlockOps` property verifier (lines 526–592) -/

/-- Diagnostic severities. -/
inductive DiagSeverity where
  | warning | error
deriving DecidableEq, Repr

/-- A `Diagnostic` (severity, rule, code, message; span omitted). -/
structure Diagnostic where
  severity : DiagSeverity
  rule : String
  code : Nat
  message : String
deriving DecidableEq, Repr

/-- The Error diagnostic `CheckTensorOp` emits for a residual tensor op. -/
def tensorOpDiagnostic (opName : String) : Diagnostic :=
  ⟨.error, "IncoreBlockOps", 0,
    "Tensor op '" ++ opName ++ "' found in InCore function (should have been converted)"⟩

/-- `IncoreBlockOpsVerifier::CheckTensorOp` on a call's op: skip `GlobalVar`
function calls and unregistered ops; emit the Error diagnostic when the op's
registry category is `"TensorOp"` and the conversion registry has a
conversion for it. -/
def checkTensorOp (convReg : ConvRegistry) (op : OpRef) : List Diagnostic :=
  match op with
  | .globalVar _ => []
  | .op name =>
      match opRegistry name with
      | none => []
      | some entry =>
          if entry.category = "TensorOp" ∧ hasConversion convReg name then
            [tensorOpDiagnostic name]
          else []

/-- The check the overridden `VisitStmt_(AssignStmt)` / `VisitStmt_(EvalStmt)`
perform: only a value that is directly a `Call` is checked. -/
def checkStmtValue (convReg : ConvRegistry) (value : Expr) : List Diagnostic :=
  match value with
  | .call op _ _ _ => checkTensorOp convReg op
  | _ => []

mutual
/-- The `IncoreBlockOpsVerifier` visitor over a statement tree: the two
overridden hooks check the top-level expression of `AssignStmt` / `EvalStmt`;
the base `IRVisitor` recursion then descends into child statements. Calls
nested inside other expressions (or inside `ReturnStmt` values) have no
overridden hook and produce no diagnostics. -/
def incoreBlockOpsVisit (convReg : ConvRegistry) : Stmt → List Diagnostic
  | .assign _ value => checkStmtValue convReg value
  | .eval e => checkStmtValue convReg e
  | .ret _ => []
  | .ifS _ t e => incoreBlockOpsVisit convReg t ++ incoreBlockOpsVisitOpt convReg e
  | .forS _ _ _ _ body => incoreBlockOpsVisit convReg body
  | .seq ss => incoreBlockOpsVisitList convReg ss
termination_by structural a => a

def incoreBlockOpsVisitList (convReg : ConvRegistry) : List Stmt → List Diagnostic
  | [] => []
  | s :: ss => incoreBlockOpsVisit convReg s ++ incoreBlockOpsVisitList convReg ss
termination_by structural a => a

def incoreBlockOpsVisitOpt (convReg : ConvRegistry) : Option Stmt → List Diagnostic
  | none => []
  | some s => incoreBlockOpsVisit convReg s
termination_by structural a => a
end

/-- `IncoreBlockOpsPropertyVerifierImpl::Verify`, one function: only InCore
function bodies are visited. -/
def incoreBlockOpsCollectFn (convReg : ConvRegistry) (f : Function) : List Diagnostic :=
  if f.funcType = .inCore then incoreBlockOpsVisit convReg f.body else []

/-- `IncoreBlockOpsPropertyVerifierImpl::Verify`: appends the diagnostics
collected from the InCore functions to the caller's vector; it is a total
function — it never throws. -/
def incoreBlockOpsVerify (convReg : ConvRegistry) (p : Program)
    (diagnostics : List Diagnostic) : List Diagnostic :=
  diagnostics ++ p.functions.flatMap (incoreBlockOpsCollectFn convReg)

/-! ## Structural equality and hashing (§4.5)

`structural_comparison.h` declares `structural_equal` / `structural_hash`;
the implementation file is not part of the sources, so the algorithms are
modelled from the spec (§4.5) and the developer documentation. In the
embedding a `Var` has no pointer identity: its identity is its (name, type)
pair, so the C++ pointer fast path and the `auto_map = false` pointer
comparison become value comparisons, and the "per-program identity number"
hashed for a `Var` with `auto_map = false` becomes its name and type. -/

/-- Modelled from the spec: the α-mapping state — the bijective `L→R` / `R→L`
variable maps, kept as one list of simultaneously inserted pairs. -/
abbrev AMap := List (VarNode × VarNode)

/-- Left-to-right lookup in the α-map. -/
def amapLookupL : AMap → VarNode → Option VarNode
  | [], _ => none
  | (l, r) :: rest, a => if l = a then some r else amapLookupL rest a

/-- Right-to-left lookup in the α-map. -/
def amapLookupR : AMap → VarNode → Option VarNode
  | [], _ => none
  | (l, r) :: rest, b => if r = b then some l else amapLookupR rest b

/-- Modelled from the spec: `StructuralEqual::EqualVar` (§4.5 step 2).
Identical variables are equal under any flag; otherwise with auto-mapping off
the comparison fails, and with it on the types must be structurally equal and
the maps are consulted and extended keeping bijectivity. -/
def equalVar (autoMap : Bool) (m : AMap) (a b : VarNode) : Option AMap :=
  if a = b then some m
  else if autoMap = false then none
  else if a.ty ≠ b.ty then none
  else
    match amapLookupL m a with
    | some b' => if b' = b then some m else none
    | none =>
        match amapLookupR m b with
        | some a' => if a' = a then some ((a, b) :: m) else none
        | none => some ((a, b) :: m)

mutual
/-- Modelled from the spec: the Equal algorithm on expressions (§4.5).
Mismatched node kinds fail; every expression field is a `UsualField`, compared
recursively under the caller's flag, except that types, kwargs and kinds
(α-independent) compare structurally. The C++ pointer fast path is
behaviourally subsumed: descending into identical values never changes the
map. Returns the updated α-map state on success. -/
def equalExpr (autoMap : Bool) : AMap → Expr → Expr → Option AMap
  | m, .var n1 t1, .var n2 t2 => equalVar autoMap m ⟨n1, t1⟩ ⟨n2, t2⟩
  | m, .constInt v1 d1, .constInt v2 d2 => if v1 = v2 ∧ d1 = d2 then some m else none
  | m, .constBool v1, .constBool v2 => if v1 = v2 then some m else none
  | m, .makeTuple e1, .makeTuple e2 => equalExprList autoMap m e1 e2
  | m, .tupleGetItem t1 i1, .tupleGetItem t2 i2 =>
      if i1 = i2 then equalExpr autoMap m t1 t2 else none
  | m, .call o1 a1 k1 r1, .call o2 a2 k2 r2 =>
      if o1 = o2 ∧ k1 = k2 ∧ r1 = r2 then equalExprList autoMap m a1 a2 else none
  | m, .binary k1 l1 r1 d1, .binary k2 l2 r2 d2 =>
      if k1 = k2 ∧ d1 = d2 then
        (equalExpr autoMap m l1 l2).bind (fun m1 => equalExpr autoMap m1 r1 r2)
      else none
  | m, .unary k1 o1 d1, .unary k2 o2 d2 =>
      if k1 = k2 ∧ d1 = d2 then equalExpr autoMap m o1 o2 else none
  | _, _, _ => none
termination_by structural _ a _ => a

/-- Sequences compare element-wise, by length then position (§4.5 step 4),
threading the α-map state. -/
def equalExprList (autoMap : Bool) : AMap → List Expr → List Expr → Option AMap
  | m, [], [] => some m
  | m, x :: xs, y :: ys =>
      (equalExpr autoMap m x y).bind (fun m1 => equalExprList autoMap m1 xs ys)
  | _, _, _ => none
termination_by structural _ a _ => a
end

/-- Parameter lists are `DefField`s: compared with auto-mapping forced on. -/
def equalVarList : AMap → List VarNode → List VarNode → Option AMap
  | m, [], [] => some m
  | m, v1 :: r1, v2 :: r2 => (equalVar true m v1 v2).bind (fun m1 => equalVarList m1 r1 r2)
  | _, _, _ => none

mutual
/-- Modelled from the spec: the Equal algorithm on statements. `DefField`s
(`AssignStmt.var`, `ForStmt.loop_var`, `ReturnStmt` values, bound via the
function return — §4.5) recurse with auto-mapping forced on; `UsualField`s
use the caller's flag. -/
def equalStmt (autoMap : Bool) : AMap → Stmt → Stmt → Option AMap
  | m, .assign v1 e1, .assign v2 e2 =>
      (equalVar true m v1 v2).bind (fun m1 => equalExpr autoMap m1 e1 e2)
  | m, .eval e1, .eval e2 => equalExpr autoMap m e1 e2
  | m, .ret l1, .ret l2 => equalExprList true m l1 l2
  | m, .ifS c1 t1 e1, .ifS c2 t2 e2 =>
      (equalExpr autoMap m c1 c2).bind (fun m1 =>
        (equalStmt autoMap m1 t1 t2).bind (fun m2 => equalStmtOpt autoMap m2 e1 e2))
  | m, .forS v1 a1 b1 c1 s1, .forS v2 a2 b2 c2 s2 =>
      (equalVar true m v1 v2).bind (fun m1 =>
        (equalExpr autoMap m1 a1 a2).bind (fun m2 =>
          (equalExpr autoMap m2 b1 b2).bind (fun m3 =>
            (equalExpr autoMap m3 c1 c2).bind (fun m4 => equalStmt autoMap m4 s1 s2))))
  | m, .seq l1, .seq l2 => equalStmtList autoMap m l1 l2
  | _, _, _ => none
termination_by structural _ a _ => a

def equalStmtList (autoMap : Bool) : AMap → List Stmt → List Stmt → Option AMap
  | m, [], [] => some m
  | m, x :: xs, y :: ys =>
      (equalStmt autoMap m x y).bind (fun m1 => equalStmtList autoMap m1 xs ys)
  | _, _, _ => none
termination_by structural _ a _ => a

def equalStmtOpt (autoMap : Bool) : AMap → Option Stmt → Option Stmt → Option AMap
  | m, none, none => some m
  | m, some a, some b => equalStmt autoMap m a b
  | _, _, _ => none
termination_by structural _ a _ => a
end

/-- Modelled from the spec: the Equal algorithm on functions. `name` is an
`IgnoreField` (§4.5); `params` is a `DefField`; return types and the function
kind compare structurally; the body follows the caller's flag. -/
def equalFunction (autoMap : Bool) (m : AMap) (f g : Function) : Option AMap :=
  (equalVarList m f.params g.params).bind (fun m1 =>
    if f.returnTypes = g.returnTypes ∧ f.funcType = g.funcType then
      equalStmt autoMap m1 f.body g.body
    else none)

/-- The `IRNodePtr` view that `structural_equal` / `structural_hash` take. -/
inductive IRNode where
  | expr (e : Expr)
  | stmt (s : Stmt)
  | func (f : Function)

/-- `structural_equal(lhs, rhs, enable_auto_mapping)`: run the Equal
algorithm from empty α-maps. -/
def structuralEqual (lhs rhs : IRNode) (enableAutoMapping : Bool) : Bool :=
  match lhs, rhs with
  | .expr a, .expr b => (equalExpr enableAutoMapping [] a b).isSome
  | .stmt a, .stmt b => (equalStmt enableAutoMapping [] a b).isSome
  | .func a, .func b => (equalFunction enableAutoMapping [] a b).isSome
  | _, _ => false

/-- Boost-style hash combine; 64-bit machine arithmetic as `Nat` mod `2^64`. -/
def hashCombine (seed value : Nat) : Nat :=
  Nat.xor seed (value + 0x9e3779b9 + seed * 64 + seed / 4) % 2 ^ 64

/-- djb2-style string hash folded with `hashCombine`. -/
def hashStr (s : String) : Nat := s.data.foldl (fun h c => hashCombine h c.toNat) 5381

def hashBool : Bool → Nat
  | false => 0
  | true => 1

def hashDataType : DataType → Nat
  | .FP32 => 0 | .FP16 => 1 | .BF16 => 2 | .INT8 => 3
  | .UINT8 => 4 | .INT32 => 5 | .INT64 => 6 | .BOOL => 7

def hashMemorySpace : MemorySpace → Nat
  | .DDR => 0 | .UB => 1 | .L1 => 2 | .L0A => 3 | .L0B => 4 | .L0C => 5

def hashFunctionType : FunctionType → Nat
  | .opaqueFn => 0 | .orchestration => 1 | .inCore => 2

def hashBinKind : BinKind → Nat
  | .add => 0 | .sub => 1 | .mul => 2 | .floorDiv => 3 | .floorMod => 4
  | .floatDiv => 5 | .pow => 6 | .min => 7 | .max => 8 | .eq => 9 | .ne => 10
  | .lt => 11 | .le => 12 | .gt => 13 | .ge => 14 | .land => 15 | .lor => 16
  | .lxor => 17 | .bitAnd => 18 | .bitOr => 19 | .bitXor => 20
  | .bitShiftLeft => 21 | .bitShiftRight => 22

def hashUnKind : UnKind → Nat
  | .abs => 0 | .neg => 1 | .not => 2 | .bitNot => 3 | .cast => 4

/-- 64-bit hash of an integer constant. -/
def hashInt (i : Int) : Nat := (i % (2 ^ 64 : Int)).toNat

def hashAny : AnyVal → Nat
  | .dt d => hashCombine 1 (hashDataType d)
  | .ms m => hashCombine 2 (hashMemorySpace m)
  | .int n => hashCombine 3 (hashInt n)
  | .str s => hashCombine 4 (hashStr s)

def hashKwargs : List (String × AnyVal) → Nat
  | [] => 11
  | (k, v) :: rest => hashCombine (hashCombine (hashStr k) (hashAny v)) (hashKwargs rest)

def hashOpRef : OpRef → Nat
  | .op n => hashCombine (hashStr "Op") (hashStr n)
  | .globalVar n => hashCombine (hashStr "GlobalVar") (hashStr n)

mutual
/-- Modelled from the spec: structural hash of a type. Type equality is plain
structural equality, unaffected by α-mapping (§3.1), so shape expressions are
hashed with the mapping off. -/
def hashType : IRType → Nat
  | .scalar d => hashCombine (hashStr "ScalarType") (hashDataType d)
  | .tensor s d m =>
      hashCombine (hashCombine (hashCombine (hashStr "TensorType") (hashExprList false s))
        (hashDataType d)) (hashMemorySpace m)
  | .tile s d m =>
      hashCombine (hashCombine (hashCombine (hashStr "TileType") (hashExprList false s))
        (hashDataType d)) (hashMemorySpace m)
  | .tuple ts => hashCombine (hashStr "TupleType") (hashTypeList ts)
  | .void => hashStr "VoidType"
termination_by structural a => a

def hashTypeList : List IRType → Nat
  | [] => 13
  | t :: ts => hashCombine (hashType t) (hashTypeList ts)
termination_by structural a => a

/-- Modelled from the spec: the Hash algorithm on expressions (§4.5) —
combine over the type name, then over each non-ignored field. A `Var` hashes
its type only when `auto_map` is true, else also its identity (its name, in
the embedding). -/
def hashExpr (autoMap : Bool) : Expr → Nat
  | .var n ty =>
      if autoMap then hashCombine (hashStr "Var") (hashType ty)
      else hashCombine (hashCombine (hashStr "Var") (hashStr n)) (hashType ty)
  | .constInt v d => hashCombine (hashCombine (hashStr "ConstInt") (hashInt v)) (hashDataType d)
  | .constBool b => hashCombine (hashStr "ConstBool") (hashBool b)
  | .makeTuple es => hashCombine (hashStr "MakeTuple") (hashExprList autoMap es)
  | .tupleGetItem t i =>
      hashCombine (hashCombine (hashStr "TupleGetItemExpr") (hashExpr autoMap t)) i
  | .call op args kw rty =>
      hashCombine (hashCombine (hashCombine (hashCombine (hashStr "Call") (hashOpRef op))
        (hashExprList autoMap args)) (hashKwargs kw)) (hashType rty)
  | .binary k l r d =>
      hashCombine (hashCombine (hashCombine (hashCombine (hashStr "BinaryExpr") (hashBinKind k))
        (hashExpr autoMap l)) (hashExpr autoMap r)) (hashDataType d)
  | .unary k o d =>
      hashCombine (hashCombine (hashCombine (hashStr "UnaryExpr") (hashUnKind k))
        (hashExpr autoMap o)) (hashDataType d)
termination_by structural a => a

def hashExprList (autoMap : Bool) : List Expr → Nat
  | [] => 17
  | e :: es => hashCombine (hashExpr autoMap e) (hashExprList autoMap es)
termination_by structural a => a
end

/-- Hash of a `Var` in a definition-site position. -/
def hashVarNode (autoMap : Bool) (v : VarNode) : Nat := hashExpr autoMap v.toExpr

/-- Parameter lists are `DefField`s: hashed with auto-mapping forced on, in
step with `equalVarList`. -/
def hashVarList : List VarNode → Nat
  | [] => 19
  | v :: vs => hashCombine (hashVarNode true v) (hashVarList vs)

mutual
/-- Modelled from the spec: the Hash algorithm on statements. Fields in
`DefField` positions are hashed with auto-mapping forced on, in step with the
Equal algorithm, so that equal nodes hash equally under either flag. -/
def hashStmt (autoMap : Bool) : Stmt → Nat
  | .assign v e =>
      hashCombine (hashCombine (hashStr "AssignStmt") (hashVarNode true v)) (hashExpr autoMap e)
  | .eval e => hashCombine (hashStr "EvalStmt") (hashExpr autoMap e)
  | .ret vs => hashCombine (hashStr "ReturnStmt") (hashExprList true vs)
  | .ifS c t e =>
      hashCombine (hashCombine (hashCombine (hashStr "IfStmt") (hashExpr autoMap c))
        (hashStmt autoMap t)) (hashStmtOpt autoMap e)
  | .forS v a b c s =>
      hashCombine (hashCombine (hashCombine (hashCombine (hashCombine
        (hashStr "ForStmt") (hashVarNode true v)) (hashExpr autoMap a))
        (hashExpr autoMap b)) (hashExpr autoMap c)) (hashStmt autoMap s)
  | .seq ss => hashCombine (hashStr "SeqStmts") (hashStmtList autoMap ss)
termination_by structural a => a

def hashStmtList (autoMap : Bool) : List Stmt → Nat
  | [] => 23
  | s :: ss => hashCombine (hashStmt autoMap s) (hashStmtList autoMap ss)
termination_by structural a => a

def hashStmtOpt (autoMap : Bool) : Option Stmt → Nat
  | none => 29
  | some s => hashStmt autoMap s
termination_by structural a => a
end

/-- Modelled from the spec: the Hash algorithm on functions; `name` is an
`IgnoreField` and is skipped, `params` is a `DefField`. -/
def hashFunction (autoMap : Bool) (f : Function) : Nat :=
  hashCombine (hashCombine (hashCombine (hashCombine (hashStr "Function")
    (hashVarList f.params)) (hashTypeList f.returnTypes)) (hashStmt autoMap f.body))
    (hashFunctionType f.funcType)

/-- `structural_hash(node, enable_auto_mapping)`. -/
def structuralHash (node : IRNode) (enableAutoMapping : Bool) : Nat :=
  match node with
  | .expr e => hashExpr enableAutoMapping e
  | .stmt s => hashStmt enableAutoMapping s
  | .func f => hashFunction enableAutoMapping f

/-! ## Occurrence domains

Claim-side notions of "appearing in a body", used to quantify the verifier
properties: all statements of a statement tree, and the callees of all
`Call` expressions anywhere in it. -/

mutual
/-- Every statement of a statement tree, the root included. -/
def subStmts : Stmt → List Stmt
  | .assign v e => [.assign v e]
  | .eval e => [.eval e]
  | .ret vs => [.ret vs]
  | .ifS c t e => .ifS c t e :: (subStmts t ++ subStmtsOpt e)
  | .forS v a b c s => .forS v a b c s :: subStmts s
  | .seq ss => .seq ss :: subStmtsList ss
termination_by structural a => a

def subStmtsList : List Stmt → List Stmt
  | [] => []
  | s :: ss => subStmts s ++ subStmtsList ss
termination_by structural a => a

def subStmtsOpt : Option Stmt → List Stmt
  | none => []
  | some s => subStmts s
termination_by structural a => a
end

mutual
/-- The callee of every `Call` occurring anywhere in an expression. -/
def callOpsExpr : Expr → List OpRef
  | .var _ _ => []
  | .constInt _ _ => []
  | .constBool _ => []
  | .makeTuple es => callOpsExprList es
  | .tupleGetItem t _ => callOpsExpr t
  | .call op args _ _ => op :: callOpsExprList args
  | .binary _ l r _ => callOpsExpr l ++ callOpsExpr r
  | .unary _ o _ => callOpsExpr o
termination_by structural a => a

def callOpsExprList : List Expr → List OpRef
  | [] => []
  | e :: es => callOpsExpr e ++ callOpsExprList es
termination_by structural a => a
end

mutual
/-- The callee of every `Call` occurring anywhere in a statement tree. -/
def callOpsStmt : Stmt → List OpRef
  | .assign _ e => callOpsExpr e
  | .eval e => callOpsExpr e
  | .ret vs => callOpsExprList vs
  | .ifS c t e => callOpsExpr c ++ (callOpsStmt t ++ callOpsStmtOpt e)
  | .forS _ a b c s => callOpsExpr a ++ (callOpsExpr b ++ (callOpsExpr c ++ callOpsStmt s))
  | .seq ss => callOpsStmtList ss
termination_by structural a => a

def callOpsStmtList : List Stmt → List OpRef
  | [] => []
  | s :: ss => callOpsStmt s ++ callOpsStmtList ss
termination_by structural a => a

def callOpsStmtOpt : Option Stmt → List OpRef
  | none => []
  | some s => callOpsStmt s
termination_by structural a => a
end

/-- Whether a call's op is a `GlobalVar` (a function call, not a primitive). -/
def OpRef.isGlobalVarRef : OpRef → Bool
  | .op _ => false
  | .globalVar _ => true

/-- The diagnostics a single statement's own overridden hook produces: the
top-level-`Call` check of `AssignStmt` / `EvalStmt`, nothing for the rest. -/
def stmtOwnDiags (convReg : ConvRegistry) : Stmt → List Diagnostic
  | .assign _ value => checkStmtValue convReg value
  | .eval e => checkStmtValue convReg e
  | _ => []

mutual
/-- The names of all variables occurring in an expression (the domain
`SubstituteExpr`'s map is consulted on). -/
def varNamesExpr : Expr → List String
  | .var n _ => [n]
  | .constInt _ _ => []
  | .constBool _ => []
  | .makeTuple es => varNamesExprList es
  | .tupleGetItem t _ => varNamesExpr t
  | .call _ args _ _ => varNamesExprList args
  | .binary _ l r _ => varNamesExpr l ++ varNamesExpr r
  | .unary _ o _ => varNamesExpr o
termination_by structural a => a

def varNamesExprList : List Expr → List String
  | [] => []
  | e :: es => varNamesExpr e ++ varNamesExprList es
termination_by structural a => a
end

/-! ## Concrete scenario programs (S1-S3, S7 and witness inputs) -/

/-- The shape expression `16`. -/
def shape16 : Expr := .constInt 16 .INT64

/-- `Tensor[[16], FP32]` (DDR-resident). -/
def fp32TensorTy : IRType := .tensor [shape16] .FP32 .DDR

/-- The tile type `block.load` produces for `fp32TensorTy` in UB. -/
def fp32TileTy : IRType := .tile [shape16] .FP32 .UB

def varA : VarNode := ⟨"a", fp32TensorTy⟩

def varT : VarNode := ⟨"t", fp32TensorTy⟩

def varATile : VarNode := ⟨"a_tile", fp32TileTy⟩

def varTTile : VarNode := ⟨"t_tile", fp32TileTy⟩

def varOut0 : VarNode := ⟨"out_0", fp32TensorTy⟩

def varX : VarNode := ⟨"x", fp32TensorTy⟩

def varY : VarNode := ⟨"y", fp32TensorTy⟩

/-- S2's input: InCore `f(a: Tensor[[16],FP32]) -> Tensor[[16],FP32]` with
body `t = tensor.add(a, a); return t`. -/
def incoreFunF : Function :=
  { name := "f", params := [varA], returnTypes := [fp32TensorTy],
    body := .seq [.assign varT (.call (.op "tensor.add") [varA.toExpr, varA.toExpr] [] fp32TensorTy),
                  .ret [varT.toExpr]],
    funcType := .inCore }

def zeroOffsets1 : Expr := .makeTuple [.constInt 0 .INT64]

def shapeTuple16 : Expr := .makeTuple [shape16]

/-- S2's expected output function. -/
def incoreFunFExpected : Function :=
  { name := "f",
    params := [varA, varOut0],
    returnTypes := [fp32TensorTy],
    body := .seq
      [.assign varATile (.call (.op "block.load") [varA.toExpr, zeroOffsets1, shapeTuple16]
          [("target_memory", .ms .UB)] fp32TileTy),
       .assign varTTile (.call (.op "block.add") [varATile.toExpr, varATile.toExpr] [] fp32TileTy),
       .assign varOut0 (.call (.op "block.store")
          [varTTile.toExpr, zeroOffsets1, shapeTuple16, varOut0.toExpr] [] fp32TensorTy),
       .ret [varOut0.toExpr]],
    funcType := .inCore }

/-- S7-style regression program whose InCore function retains a convertible
tensor op — but inside its `ReturnStmt`, where the verifier has no hook. -/
def retainedOpFun : Function :=
  { name := "g", params := [varA], returnTypes := [fp32TensorTy],
    body := .ret [.call (.op "tensor.add") [varA.toExpr, varA.toExpr] [] fp32TensorTy],
    funcType := .inCore }

def retainedOpProgram : Program := { functions := [retainedOpFun], name := "p" }

/-- A one-function program whose InCore body still assigns a tensor op. -/
def unconvertedProgram : Program := { functions := [incoreFunF], name := "p" }

/-- A return-less InCore function. -/
def noReturnFun : Function :=
  { name := "h", params := [varA], returnTypes := [fp32TensorTy],
    body := .seq [.assign varT (.call (.op "tensor.add") [varA.toExpr, varA.toExpr] [] fp32TensorTy)],
    funcType := .inCore }

/-- A minimal program whose single function is named `foo` (scenario S1). -/
def fooFun : Function :=
  { name := "foo", params := [varA], returnTypes := [fp32TensorTy],
    body := .ret [varA.toExpr], funcType := .opaqueFn }

def fooProgram : Program := { functions := [fooFun], name := "p" }

def callSiteState0 : CallSiteState := { newStmts := [], varMap := [], changed := false }

/-- The thirteen op names with a baseline conversion. -/
def baselineConvertibleOps : List String :=
  ["tensor.add", "tensor.sub", "tensor.mul", "tensor.div", "tensor.maximum",
   "tensor.add_scalar", "tensor.sub_scalar", "tensor.mul_scalar", "tensor.div_scalar",
   "tensor.exp", "tensor.cast", "tensor.reshape", "tensor.transpose"]

/-! ## Helper lemmas -/

theorem bind_ok {α β : Type} (a : α) (f : α → Except String β) :
    ((Except.ok a : Except String α) >>= f) = f a := rfl

theorem bind_error {α β : Type} (e : String) (f : α → Except String β) :
    ((Except.error e : Except String α) >>= f) = .error e := rfl

mutual
theorem substExpr_notMem : ∀ (m : VarMap) (e : Expr),
    (∀ nm ∈ varNamesExpr e, assocLookup m nm = none) → substExpr m e = .ok e
  | m, .var n ty, h => by
      have hn : assocLookup m n = none := h n (by simp [varNamesExpr])
      simp [substExpr, hn]
  | _, .constInt _ _, _ => rfl
  | _, .constBool _, _ => rfl
  | m, .makeTuple es, h => by
      have hs := substExprList_notMem m es (fun nm hm => h nm (by simpa [varNamesExpr] using hm))
      simp [substExpr, hs, bind_ok]
  | m, .tupleGetItem t i, h => by
      have ht := substExpr_notMem m t (fun nm hm => h nm (by simpa [varNamesExpr] using hm))
      simp [substExpr, ht, bind_ok]
  | m, .call op args kw rty, h => by
      have hs := substExprList_notMem m args (fun nm hm => h nm (by simpa [varNamesExpr] using hm))
      simp [substExpr, hs, bind_ok]
  | m, .binary k l r d, h => by
      have hl := substExpr_notMem m l (fun nm hm =>
        h nm (by simp only [varNamesExpr, List.mem_append]; exact Or.inl hm))
      have hr := substExpr_notMem m r (fun nm hm =>
        h nm (by simp only [varNamesExpr, List.mem_append]; exact Or.inr hm))
      simp [substExpr, hl, hr, bind_ok]
  | m, .unary k o d, h => by
      have ho := substExpr_notMem m o (fun nm hm => h nm (by simpa [varNamesExpr] using hm))
      simp [substExpr, ho, bind_ok]

theorem substExprList_notMem : ∀ (m : VarMap) (es : List Expr),
    (∀ nm ∈ varNamesExprList es, assocLookup m nm = none) → substExprList m es = .ok es
  | _, [], _ => rfl
  | m, e :: es, h => by
      have he := substExpr_notMem m e (fun nm hm =>
        h nm (by simp only [varNamesExprList, List.mem_append]; exact Or.inl hm))
      have hes := substExprList_notMem m es (fun nm hm =>
        h nm (by simp only [varNamesExprList, List.mem_append]; exact Or.inr hm))
      simp [substExprList, he, hes, bind_ok]
end

theorem substExpr_nil (e : Expr) : substExpr [] e = .ok e :=
  substExpr_notMem [] e (fun _ _ => rfl)

theorem substExprList_nil (es : List Expr) : substExprList [] es = .ok es :=
  substExprList_notMem [] es (fun _ _ => rfl)

theorem defaultConvRegistry_eq : defaultConvRegistry =
    [("tensor.add", .simple "block.add"), ("tensor.sub", .simple "block.sub"),
     ("tensor.mul", .simple "block.mul"), ("tensor.div", .simple "block.div"),
     ("tensor.maximum", .simple "block.maximum"), ("tensor.add_scalar", .simple "block.adds"),
     ("tensor.sub_scalar", .simple "block.subs"), ("tensor.mul_scalar", .simple "block.muls"),
     ("tensor.div_scalar", .simple "block.divs"), ("tensor.exp", .simple "block.exp"),
     ("tensor.cast", .simple "block.cast"), ("tensor.reshape", .simple "block.reshape"),
     ("tensor.transpose", .simple "block.transpose")] := rfl

mutual
theorem stmtOwnDiags_mem_visit (convReg : ConvRegistry) :
    ∀ (t s : Stmt), s ∈ subStmts t →
      ∀ d ∈ stmtOwnDiags convReg s, d ∈ incoreBlockOpsVisit convReg t
  | .assign v e, s, hs, d, hd => by
      simp only [subStmts, List.mem_singleton] at hs
      subst hs
      simpa [incoreBlockOpsVisit, stmtOwnDiags] using hd
  | .eval e, s, hs, d, hd => by
      simp only [subStmts, List.mem_singleton] at hs
      subst hs
      simpa [incoreBlockOpsVisit, stmtOwnDiags] using hd
  | .ret vs, s, hs, d, hd => by
      simp only [subStmts, List.mem_singleton] at hs
      subst hs
      simp [stmtOwnDiags] at hd
  | .ifS c tb eb, s, hs, d, hd => by
      simp only [subStmts, List.mem_cons, List.mem_append] at hs
      rcases hs with hs | hs | hs
      · subst hs; simp [stmtOwnDiags] at hd
      · have := stmtOwnDiags_mem_visit convReg tb s hs d hd
        simp [incoreBlockOpsVisit, this]
      · have := stmtOwnDiagsOpt_mem_visit convReg eb s hs d hd
        simp [incoreBlockOpsVisit, this]
  | .forS v a b c body, s, hs, d, hd => by
      simp only [subStmts, List.mem_cons] at hs
      rcases hs with hs | hs
      · subst hs; simp [stmtOwnDiags] at hd
      · have := stmtOwnDiags_mem_visit convReg body s hs d hd
        simpa [incoreBlockOpsVisit] using this
  | .seq ss, s, hs, d, hd => by
      simp only [subStmts, List.mem_cons] at hs
      rcases hs with hs | hs
      · subst hs; simp [stmtOwnDiags] at hd
      · have := stmtOwnDiagsList_mem_visit convReg ss s hs d hd
        simpa [incoreBlockOpsVisit] using this

theorem stmtOwnDiagsList_mem_visit (convReg : ConvRegistry) :
    ∀ (ts : List Stmt) (s : Stmt), s ∈ subStmtsList ts →
      ∀ d ∈ stmtOwnDiags convReg s, d ∈ incoreBlockOpsVisitList convReg ts
  | t :: ts, s, hs, d, hd => by
      simp only [subStmtsList, List.mem_append] at hs
      rcases hs with hs | hs
      · have := stmtOwnDiags_mem_visit convReg t s hs d hd
        simp [incoreBlockOpsVisitList, this]
      · have := stmtOwnDiagsList_mem_visit convReg ts s hs d hd
        simp [incoreBlockOpsVisitList, this]

theorem stmtOwnDiagsOpt_mem_visit (convReg : ConvRegistry) :
    ∀ (t : Option Stmt) (s : Stmt), s ∈ subStmtsOpt t →
      ∀ d ∈ stmtOwnDiags convReg s, d ∈ incoreBlockOpsVisitOpt convReg t
  | some t, s, hs, d, hd => by
      have := stmtOwnDiags_mem_visit convReg t s (by simpa [subStmtsOpt] using hs) d hd
      simpa [incoreBlockOpsVisitOpt] using this
end

theorem incoreSubstKeep_ok_returnValues (st : IncoreBodyState) (v : VarNode)
    (value : Expr) (stmt : Stmt) (st' : IncoreBodyState)
    (h : incoreSubstKeep st v value stmt = .ok st') :
    st'.returnValues = st.returnValues := by
  simp only [incoreSubstKeep] at h
  cases hsub : substExpr st.tensorToTile value with
  | error e => rw [hsub, bind_error] at h; exact absurd h (by simp)
  | ok nv =>
    rw [hsub, bind_ok] at h
    split at h <;> (cases h; rfl)

theorem incoreBodyStep_ok_returnValues (convReg : ConvRegistry) (st : IncoreBodyState)
    (s : Stmt) (st' : IncoreBodyState) (hnr : ∀ vs, s ≠ .ret vs)
    (h : incoreBodyStep convReg st s = .ok st') :
    st'.returnValues = st.returnValues := by
  cases s with
  | ret vs => exact absurd rfl (hnr vs)
  | assign v value =>
    cases value with
    | call op args kw rty =>
      cases op with
      | globalVar g =>
        exact incoreSubstKeep_ok_returnValues _ _ _ _ _ h
      | op opName =>
        simp only [incoreBodyStep] at h
        cases hc : convLookup convReg opName with
        | none => simp only [hc] at h; exact incoreSubstKeep_ok_returnValues _ _ _ _ _ h
        | some conv =>
          simp only [hc] at h
          cases hsa : substExprList st.tensorToTile args with
          | error e => simp only [hsa, bind_error] at h; exact absurd h (by simp)
          | ok sargs =>
            simp only [hsa, bind_ok] at h
            cases hap : conv.apply sargs kw with
            | error e => simp only [hap, bind_error] at h; exact absurd h (by simp)
            | ok res => simp only [hap, bind_ok] at h; cases h; rfl
    | var n ty => exact incoreSubstKeep_ok_returnValues _ _ _ _ _ h
    | constInt a b => exact incoreSubstKeep_ok_returnValues _ _ _ _ _ h
    | constBool a => exact incoreSubstKeep_ok_returnValues _ _ _ _ _ h
    | makeTuple es => exact incoreSubstKeep_ok_returnValues _ _ _ _ _ h
    | tupleGetItem t i => exact incoreSubstKeep_ok_returnValues _ _ _ _ _ h
    | binary k l r d => exact incoreSubstKeep_ok_returnValues _ _ _ _ _ h
    | unary k o d => exact incoreSubstKeep_ok_returnValues _ _ _ _ _ h
  | eval e => cases h; rfl
  | ifS c t e => cases h; rfl
  | forS v a b c body => cases h; rfl
  | seq ss => cases h; rfl

theorem foldBody_ok_returnValues (convReg : ConvRegistry) :
    ∀ (stmts : List Stmt) (st st' : IncoreBodyState),
      (∀ s ∈ stmts, ∀ vs, s ≠ .ret vs) →
      List.foldlM (incoreBodyStep convReg) st stmts = .ok st' →
      st'.returnValues = st.returnValues
  | [], st, st', _, h => by cases h; rfl
  | s :: stmts, st, st', hnr, h => by
    simp only [List.foldlM_cons] at h
    cases hstep : incoreBodyStep convReg st s with
    | error e => rw [hstep, bind_error] at h; exact absurd h (by simp)
    | ok st1 =>
      rw [hstep, bind_ok] at h
      have h1 := incoreBodyStep_ok_returnValues convReg st s st1
        (hnr s (List.mem_cons_self s stmts)) hstep
      have h2 := foldBody_ok_returnValues convReg stmts st1 st'
        (fun t ht vs => hnr t (List.mem_cons_of_mem s ht) vs) h
      rw [h2, h1]

theorem equalVar_refl (autoMap : Bool) (m : AMap) (a : VarNode) :
    equalVar autoMap m a a = some m := by
  simp [equalVar]

mutual
theorem equalExpr_refl : ∀ (autoMap : Bool) (m : AMap) (a : Expr),
    equalExpr autoMap m a a = some m
  | α, m, .var n t => equalVar_refl α m ⟨n, t⟩
  | α, m, .constInt v d => by simp [equalExpr]
  | α, m, .constBool b => by simp [equalExpr]
  | α, m, .makeTuple es => equalExprList_refl α m es
  | α, m, .tupleGetItem t i => by simp [equalExpr, equalExpr_refl α m t]
  | α, m, .call o a k r => by simp [equalExpr, equalExprList_refl α m a]
  | α, m, .binary k l r d => by
      simp [equalExpr, equalExpr_refl α m l, equalExpr_refl α m r]
  | α, m, .unary k o d => by simp [equalExpr, equalExpr_refl α m o]

theorem equalExprList_refl : ∀ (autoMap : Bool) (m : AMap) (es : List Expr),
    equalExprList autoMap m es es = some m
  | α, m, [] => rfl
  | α, m, e :: es => by
      simp [equalExprList, equalExpr_refl α m e, equalExprList_refl α m es]
end

mutual
theorem equalStmt_refl : ∀ (autoMap : Bool) (m : AMap) (s : Stmt),
    equalStmt autoMap m s s = some m
  | α, m, .assign v e => by
      simp [equalStmt, equalVar_refl true m v, equalExpr_refl α m e]
  | α, m, .eval e => equalExpr_refl α m e
  | α, m, .ret vs => equalExprList_refl true m vs
  | α, m, .ifS c t e => by
      simp [equalStmt, equalExpr_refl α m c, equalStmt_refl α m t, equalStmtOpt_refl α m e]
  | α, m, .forS v a b c s => by
      simp [equalStmt, equalVar_refl true m v, equalExpr_refl α m a, equalExpr_refl α m b,
        equalExpr_refl α m c, equalStmt_refl α m s]
  | α, m, .seq ss => equalStmtList_refl α m ss

theorem equalStmtList_refl : ∀ (autoMap : Bool) (m : AMap) (ss : List Stmt),
    equalStmtList autoMap m ss ss = some m
  | α, m, [] => rfl
  | α, m, s :: ss => by
      simp [equalStmtList, equalStmt_refl α m s, equalStmtList_refl α m ss]

theorem equalStmtOpt_refl : ∀ (autoMap : Bool) (m : AMap) (o : Option Stmt),
    equalStmtOpt autoMap m o o = some m
  | _, _, none => rfl
  | α, m, some s => equalStmt_refl α m s
end

theorem foldLoads_no_tensor : ∀ (ps : List VarNode) (acc : List Stmt) (mp : VarMap),
    (∀ p ∈ ps, p.ty.isTensorTy = false) →
    List.foldlM incoreLoadStep (acc, mp) ps = .ok (acc, mp)
  | [], _, _, _ => rfl
  | p :: ps, acc, mp, h => by
    have hstep : incoreLoadStep (acc, mp) p = .ok (acc, mp) := by
      cases hp : p.ty with
      | tensor s d msp =>
        have := h p (List.mem_cons_self p ps)
        rw [hp] at this
        exact absurd this (by simp [IRType.isTensorTy])
      | scalar d => simp [incoreLoadStep, hp]
      | tile s d msp => simp [incoreLoadStep, hp]
      | tuple ts => simp [incoreLoadStep, hp]
      | void => simp [incoreLoadStep, hp]
    rw [List.foldlM_cons, hstep, bind_ok]
    exact foldLoads_no_tensor ps acc mp (fun q hq => h q (List.mem_cons_of_mem p hq))

theorem foldBody_no_conversion (convReg : ConvRegistry) (vals : List Expr) :
    ∀ (stmts : List Stmt) (st : IncoreBodyState), st.tensorToTile = [] →
    (∀ s ∈ stmts, (∀ vs, s ≠ .ret vs) ∧
      (∀ v op args kw rty, s = .assign v (.call (.op op) args kw rty) →
        convLookup convReg op = none)) →
    List.foldlM (incoreBodyStep convReg) st (stmts ++ [.ret vals]) =
      .ok { newStmts := st.newStmts ++ stmts, tensorToTile := [], returnValues := some vals }
  | [], st, hmap, _ => by
    obtain ⟨ns, tt, rv⟩ := st
    simp only at hmap
    subst hmap
    simp [List.foldlM, incoreBodyStep, bind_ok]
  | s :: stmts, st, hmap, h => by
    have hkeep : ∀ v value, incoreSubstKeep st v value (.assign v value) =
        .ok { st with newStmts := st.newStmts ++ [.assign v value] } := by
      intro v value
      rw [incoreSubstKeep, hmap, substExpr_nil, bind_ok]
      simp
    have hstep : incoreBodyStep convReg st s =
        .ok { st with newStmts := st.newStmts ++ [s] } := by
      cases s with
      | ret vs => exact absurd rfl ((h _ (List.mem_cons_self _ _)).1 vs)
      | assign v value =>
        cases value with
        | call op args kw rty =>
          cases op with
          | globalVar g => exact hkeep v (.call (.globalVar g) args kw rty)
          | op opName =>
            have hc : convLookup convReg opName = none :=
              (h _ (List.mem_cons_self _ _)).2 v opName args kw rty rfl
            simp only [incoreBodyStep, hc]
            exact hkeep v (.call (.op opName) args kw rty)
        | var n ty => exact hkeep v (.var n ty)
        | constInt a b => exact hkeep v (.constInt a b)
        | constBool a => exact hkeep v (.constBool a)
        | makeTuple es => exact hkeep v (.makeTuple es)
        | tupleGetItem t i => exact hkeep v (.tupleGetItem t i)
        | binary k l r d => exact hkeep v (.binary k l r d)
        | unary k o d => exact hkeep v (.unary k o d)
      | eval e => rfl
      | ifS c t e => rfl
      | forS v a b c body => rfl
      | seq ss => rfl
    rw [List.cons_append, List.foldlM_cons, hstep, bind_ok]
    have := foldBody_no_conversion convReg vals stmts
      { st with newStmts := st.newStmts ++ [s] } hmap
      (fun t ht => h t (List.mem_cons_of_mem s ht))
    simpa [List.append_assoc] using this

theorem foldEpilogue_no_tile (rts : List IRType) :
    ∀ (vals : List Expr) (ep : IncoreEpilogueState),
    (∀ v ∈ vals, v.getType.isTileTy = false) →
    List.foldlM (incoreReturnStep rts []) ep vals =
      .ok { newStmts := ep.newStmts,
            newParams := ep.newParams,
            newReturnTypes := ep.newReturnTypes ++ Expr.getTypeList vals,
            newReturnExprs := ep.newReturnExprs ++ vals,
            numAddedOutputs := ep.numAddedOutputs,
            index := ep.index + vals.length }
  | [], ep, _ => by
    simp only [List.foldlM, Expr.getTypeList, List.append_nil, List.length_nil, Nat.add_zero]
    rfl
  | v :: vals, ep, h => by
    have hstep : incoreReturnStep rts [] ep v =
        .ok { ep with
              newReturnTypes := ep.newReturnTypes ++ [v.getType],
              newReturnExprs := ep.newReturnExprs ++ [v],
              index := ep.index + 1 } := by
      rw [incoreReturnStep, substExpr_nil, bind_ok]
      cases hT : v.getType with
      | tile s d msp =>
        have := h v (List.mem_cons_self v vals)
        rw [hT] at this
        exact absurd this (by simp [IRType.isTileTy])
      | scalar d => simp [hT]
      | tensor s d msp => simp [hT]
      | tuple ts => simp [hT]
      | void => simp [hT]
    rw [List.foldlM_cons, hstep, bind_ok]
    have := foldEpilogue_no_tile rts vals
      { ep with
        newReturnTypes := ep.newReturnTypes ++ [v.getType],
        newReturnExprs := ep.newReturnExprs ++ [v],
        index := ep.index + 1 }
      (fun w hw => h w (List.mem_cons_of_mem v hw))
    rw [this]
    simp only [Expr.getTypeList, List.append_assoc, List.singleton_append, List.length_cons]
    congr 2
    omega

theorem equalVar_hash (autoMap : Bool) (m : AMap) (a b : VarNode) (m' : AMap)
    (h : equalVar autoMap m a b = some m') :
    hashVarNode autoMap a = hashVarNode autoMap b := by
  by_cases hab : a = b
  · rw [hab]
  · rw [equalVar, if_neg hab] at h
    cases autoMap with
    | false => simp at h
    | true =>
      by_cases hty : a.ty = b.ty
      · obtain ⟨na, ta⟩ := a
        obtain ⟨nb, tb⟩ := b
        simp only at hty
        subst hty
        simp [hashVarNode, VarNode.toExpr, hashExpr]
      · simp [hty] at h

mutual
theorem equalExpr_hash : ∀ (α : Bool) (m : AMap) (a b : Expr) (m' : AMap),
    equalExpr α m a b = some m' → hashExpr α a = hashExpr α b
  | α, m, .var n1 t1, .var n2 t2, m', h => by
      simp only [equalExpr] at h
      have := equalVar_hash α m ⟨n1, t1⟩ ⟨n2, t2⟩ m' h
      simpa [hashVarNode, VarNode.toExpr] using this
  | α, m, .constInt v1 d1, .constInt v2 d2, m', h => by
      simp only [equalExpr] at h
      split_ifs at h with hc
      rw [hc.1, hc.2]
  | α, m, .constBool v1, .constBool v2, m', h => by
      simp only [equalExpr] at h
      split_ifs at h with hc
      rw [hc]
  | α, m, .makeTuple e1, .makeTuple e2, m', h => by
      simp only [equalExpr] at h
      simp only [hashExpr]
      rw [equalExprList_hash α m e1 e2 m' h]
  | α, m, .tupleGetItem t1 i1, .tupleGetItem t2 i2, m', h => by
      simp only [equalExpr] at h
      split_ifs at h with hc
      subst hc
      simp only [hashExpr]
      rw [equalExpr_hash α m t1 t2 m' h]
  | α, m, .call o1 a1 k1 r1, .call o2 a2 k2 r2, m', h => by
      simp only [equalExpr] at h
      split_ifs at h with hc
      obtain ⟨ho, hk, hr⟩ := hc
      subst ho; subst hk; subst hr
      simp only [hashExpr]
      rw [equalExprList_hash α m a1 a2 m' h]
  | α, m, .binary k1 l1 r1 d1, .binary k2 l2 r2 d2, m', h => by
      simp only [equalExpr] at h
      split_ifs at h with hc
      obtain ⟨hk, hd⟩ := hc
      subst hk; subst hd
      rw [Option.bind_eq_some] at h
      obtain ⟨m1, h1, h2⟩ := h
      simp only [hashExpr]
      rw [equalExpr_hash α m l1 l2 m1 h1, equalExpr_hash α m1 r1 r2 m' h2]
  | α, m, .unary k1 o1 d1, .unary k2 o2 d2, m', h => by
      simp only [equalExpr] at h
      split_ifs at h with hc
      obtain ⟨hk, hd⟩ := hc
      subst hk; subst hd
      simp only [hashExpr]
      rw [equalExpr_hash α m o1 o2 m' h]
  | α, m, .var _ _, .constInt _ _, m', h => by simp [equalExpr] at h
  | α, m, .var _ _, .constBool _, m', h => by simp [equalExpr] at h
  | α, m, .var _ _, .makeTuple _, m', h => by simp [equalExpr] at h
  | α, m, .var _ _, .tupleGetItem _ _, m', h => by simp [equalExpr] at h
  | α, m, .var _ _, .call _ _ _ _, m', h => by simp [equalExpr] at h
  | α, m, .var _ _, .binary _ _ _ _, m', h => by simp [equalExpr] at h
  | α, m, .var _ _, .unary _ _ _, m', h => by simp [equalExpr] at h
  | α, m, .constInt _ _, .var _ _, m', h => by simp [equalExpr] at h
  | α, m, .constInt _ _, .constBool _, m', h => by simp [equalExpr] at h
  | α, m, .constInt _ _, .makeTuple _, m', h => by simp [equalExpr] at h
  | α, m, .constInt _ _, .tupleGetItem _ _, m', h => by simp [equalExpr] at h
  | α, m, .constInt _ _, .call _ _ _ _, m', h => by simp [equalExpr] at h
  | α, m, .constInt _ _, .binary _ _ _ _, m', h => by simp [equalExpr] at h
  | α, m, .constInt _ _, .unary _ _ _, m', h => by simp [equalExpr] at h
  | α, m, .constBool _, .var _ _, m', h => by simp [equalExpr] at h
  | α, m, .constBool _, .constInt _ _, m', h => by simp [equalExpr] at h
  | α, m, .constBool _, .makeTuple _, m', h => by simp [equalExpr] at h
  | α, m, .constBool _, .tupleGetItem _ _, m', h => by simp [equalExpr] at h
  | α, m, .constBool _, .call _ _ _ _, m', h => by simp [equalExpr] at h
  | α, m, .constBool _, .binary _ _ _ _, m', h => by simp [equalExpr] at h
  | α, m, .constBool _, .unary _ _ _, m', h => by simp [equalExpr] at h
  | α, m, .makeTuple _, .var _ _, m', h => by simp [equalExpr] at h
  | α, m, .makeTuple _, .constInt _ _, m', h => by simp [equalExpr] at h
  | α, m, .makeTuple _, .constBool _, m', h => by simp [equalExpr] at h
  | α, m, .makeTuple _, .tupleGetItem _ _, m', h => by simp [equalExpr] at h
  | α, m, .makeTuple _, .call _ _ _ _, m', h => by simp [equalExpr] at h
  | α, m, .makeTuple _, .binary _ _ _ _, m', h => by simp [equalExpr] at h
  | α, m, .makeTuple _, .unary _ _ _, m', h => by simp [equalExpr] at h
  | α, m, .tupleGetItem _ _, .var _ _, m', h => by simp [equalExpr] at h
  | α, m, .tupleGetItem _ _, .constInt _ _, m', h => by simp [equalExpr] at h
  | α, m, .tupleGetItem _ _, .constBool _, m', h => by simp [equalExpr] at h
  | α, m, .tupleGetItem _ _, .makeTuple _, m', h => by simp [equalExpr] at h
  | α, m, .tupleGetItem _ _, .call _ _ _ _, m', h => by simp [equalExpr] at h
  | α, m, .tupleGetItem _ _, .binary _ _ _ _, m', h => by simp [equalExpr] at h
  | α, m, .tupleGetItem _ _, .unary _ _ _, m', h => by simp [equalExpr] at h
  | α, m, .call _ _ _ _, .var _ _, m', h => by simp [equalExpr] at h
  | α, m, .call _ _ _ _, .constInt _ _, m', h => by simp [equalExpr] at h
  | α, m, .call _ _ _ _, .constBool _, m', h => by simp [equalExpr] at h
  | α, m, .call _ _ _ _, .makeTuple _, m', h => by simp [equalExpr] at h
  | α, m, .call _ _ _ _, .tupleGetItem _ _, m', h => by simp [equalExpr] at h
  | α, m, .call _ _ _ _, .binary _ _ _ _, m', h => by simp [equalExpr] at h
  | α, m, .call _ _ _ _, .unary _ _ _, m', h => by simp [equalExpr] at h
  | α, m, .binary _ _ _ _, .var _ _, m', h => by simp [equalExpr] at h
  | α, m, .binary _ _ _ _, .constInt _ _, m', h => by simp [equalExpr] at h
  | α, m, .binary _ _ _ _, .constBool _, m', h => by simp [equalExpr] at h
  | α, m, .binary _ _ _ _, .makeTuple _, m', h => by simp [equalExpr] at h
  | α, m, .binary _ _ _ _, .tupleGetItem _ _, m', h => by simp [equalExpr] at h
  | α, m, .binary _ _ _ _, .call _ _ _ _, m', h => by simp [equalExpr] at h
  | α, m, .binary _ _ _ _, .unary _ _ _, m', h => by simp [equalExpr] at h
  | α, m, .unary _ _ _, .var _ _, m', h => by simp [equalExpr] at h
  | α, m, .unary _ _ _, .constInt _ _, m', h => by simp [equalExpr] at h
  | α, m, .unary _ _ _, .constBool _, m', h => by simp [equalExpr] at h
  | α, m, .unary _ _ _, .makeTuple _, m', h => by simp [equalExpr] at h
  | α, m, .unary _ _ _, .tupleGetItem _ _, m', h => by simp [equalExpr] at h
  | α, m, .unary _ _ _, .call _ _ _ _, m', h => by simp [equalExpr] at h
  | α, m, .unary _ _ _, .binary _ _ _ _, m', h => by simp [equalExpr] at h

theorem equalExprList_hash : ∀ (α : Bool) (m : AMap) (a b : List Expr) (m' : AMap),
    equalExprList α m a b = some m' → hashExprList α a = hashExprList α b
  | _, _, [], [], _, _ => rfl
  | α, m, x :: xs, y :: ys, m', h => by
      simp only [equalExprList] at h
      rw [Option.bind_eq_some] at h
      obtain ⟨m1, h1, h2⟩ := h
      simp only [hashExprList]
      rw [equalExpr_hash α m x y m1 h1, equalExprList_hash α m1 xs ys m' h2]
  | α, m, [], _ :: _, m', h => by simp [equalExprList] at h
  | α, m, _ :: _, [], m', h => by simp [equalExprList] at h
end

mutual
theorem equalStmt_hash : ∀ (α : Bool) (m : AMap) (a b : Stmt) (m' : AMap),
    equalStmt α m a b = some m' → hashStmt α a = hashStmt α b
  | α, m, .assign v1 e1, .assign v2 e2, m', h => by
      simp only [equalStmt] at h
      rw [Option.bind_eq_some] at h
      obtain ⟨m1, h1, h2⟩ := h
      simp only [hashStmt]
      rw [equalVar_hash true m v1 v2 m1 h1, equalExpr_hash α m1 e1 e2 m' h2]
  | α, m, .eval e1, .eval e2, m', h => by
      simp only [equalStmt] at h
      simp only [hashStmt]
      rw [equalExpr_hash α m e1 e2 m' h]
  | α, m, .ret l1, .ret l2, m', h => by
      simp only [equalStmt] at h
      simp only [hashStmt]
      rw [equalExprList_hash true m l1 l2 m' h]
  | α, m, .ifS c1 t1 e1, .ifS c2 t2 e2, m', h => by
      simp only [equalStmt] at h
      rw [Option.bind_eq_some] at h
      obtain ⟨m1, h1, h⟩ := h
      rw [Option.bind_eq_some] at h
      obtain ⟨m2, h2, h3⟩ := h
      simp only [hashStmt]
      rw [equalExpr_hash α m c1 c2 m1 h1, equalStmt_hash α m1 t1 t2 m2 h2,
        equalStmtOpt_hash α m2 e1 e2 m' h3]
  | α, m, .forS v1 a1 b1 c1 s1, .forS v2 a2 b2 c2 s2, m', h => by
      simp only [equalStmt] at h
      rw [Option.bind_eq_some] at h
      obtain ⟨m1, h1, h⟩ := h
      rw [Option.bind_eq_some] at h
      obtain ⟨m2, h2, h⟩ := h
      rw [Option.bind_eq_some] at h
      obtain ⟨m3, h3, h⟩ := h
      rw [Option.bind_eq_some] at h
      obtain ⟨m4, h4, h5⟩ := h
      simp only [hashStmt]
      rw [equalVar_hash true m v1 v2 m1 h1, equalExpr_hash α m1 a1 a2 m2 h2,
        equalExpr_hash α m2 b1 b2 m3 h3, equalExpr_hash α m3 c1 c2 m4 h4,
        equalStmt_hash α m4 s1 s2 m' h5]
  | α, m, .seq l1, .seq l2, m', h => by
      simp only [equalStmt] at h
      simp only [hashStmt]
      rw [equalStmtList_hash α m l1 l2 m' h]
  | α, m, .assign _ _, .eval _, m', h => by simp [equalStmt] at h
  | α, m, .assign _ _, .ret _, m', h => by simp [equalStmt] at h
  | α, m, .assign _ _, .ifS _ _ _, m', h => by simp [equalStmt] at h
  | α, m, .assign _ _, .forS _ _ _ _ _, m', h => by simp [equalStmt] at h
  | α, m, .assign _ _, .seq _, m', h => by simp [equalStmt] at h
  | α, m, .eval _, .assign _ _, m', h => by simp [equalStmt] at h
  | α, m, .eval _, .ret _, m', h => by simp [equalStmt] at h
  | α, m, .eval _, .ifS _ _ _, m', h => by simp [equalStmt] at h
  | α, m, .eval _, .forS _ _ _ _ _, m', h => by simp [equalStmt] at h
  | α, m, .eval _, .seq _, m', h => by simp [equalStmt] at h
  | α, m, .ret _, .assign _ _, m', h => by simp [equalStmt] at h
  | α, m, .ret _, .eval _, m', h => by simp [equalStmt] at h
  | α, m, .ret _, .ifS _ _ _, m', h => by simp [equalStmt] at h
  | α, m, .ret _, .forS _ _ _ _ _, m', h => by simp [equalStmt] at h
  | α, m, .ret _, .seq _, m', h => by simp [equalStmt] at h
  | α, m, .ifS _ _ _, .assign _ _, m', h => by simp [equalStmt] at h
  | α, m, .ifS _ _ _, .eval _, m', h => by simp [equalStmt] at h
  | α, m, .ifS _ _ _, .ret _, m', h => by simp [equalStmt] at h
  | α, m, .ifS _ _ _, .forS _ _ _ _ _, m', h => by simp [equalStmt] at h
  | α, m, .ifS _ _ _, .seq _, m', h => by simp [equalStmt] at h
  | α, m, .forS _ _ _ _ _, .assign _ _, m', h => by simp [equalStmt] at h
  | α, m, .forS _ _ _ _ _, .eval _, m', h => by simp [equalStmt] at h
  | α, m, .forS _ _ _ _ _, .ret _, m', h => by simp [equalStmt] at h
  | α, m, .forS _ _ _ _ _, .ifS _ _ _, m', h => by simp [equalStmt] at h
  | α, m, .forS _ _ _ _ _, .seq _, m', h => by simp [equalStmt] at h
  | α, m, .seq _, .assign _ _, m', h => by simp [equalStmt] at h
  | α, m, .seq _, .eval _, m', h => by simp [equalStmt] at h
  | α, m, .seq _, .ret _, m', h => by simp [equalStmt] at h
  | α, m, .seq _, .ifS _ _ _, m', h => by simp [equalStmt] at h
  | α, m, .seq _, .forS _ _ _ _ _, m', h => by simp [equalStmt] at h

theorem equalStmtList_hash : ∀ (α : Bool) (m : AMap) (a b : List Stmt) (m' : AMap),
    equalStmtList α m a b = some m' → hashStmtList α a = hashStmtList α b
  | _, _, [], [], _, _ => rfl
  | α, m, x :: xs, y :: ys, m', h => by
      simp only [equalStmtList] at h
      rw [Option.bind_eq_some] at h
      obtain ⟨m1, h1, h2⟩ := h
      simp only [hashStmtList]
      rw [equalStmt_hash α m x y m1 h1, equalStmtList_hash α m1 xs ys m' h2]
  | α, m, [], _ :: _, m', h => by simp [equalStmtList] at h
  | α, m, _ :: _, [], m', h => by simp [equalStmtList] at h

theorem equalStmtOpt_hash : ∀ (α : Bool) (m : AMap) (a b : Option Stmt) (m' : AMap),
    equalStmtOpt α m a b = some m' → hashStmtOpt α a = hashStmtOpt α b
  | _, _, none, none, _, _ => rfl
  | α, m, some x, some y, m', h => by
      simp only [equalStmtOpt] at h
      simp only [hashStmtOpt]
      rw [equalStmt_hash α m x y m' h]
  | α, m, none, some _, m', h => by simp [equalStmtOpt] at h
  | α, m, some _, none, m', h => by simp [equalStmtOpt] at h
end

theorem equalVarList_hash : ∀ (m : AMap) (v1 v2 : List VarNode) (m' : AMap),
    equalVarList m v1 v2 = some m' → hashVarList v1 = hashVarList v2
  | _, [], [], _, _ => rfl
  | m, a :: as, b :: bs, m', h => by
      simp only [equalVarList] at h
      rw [Option.bind_eq_some] at h
      obtain ⟨m1, h1, h2⟩ := h
      simp only [hashVarList]
      rw [equalVar_hash true m a b m1 h1, equalVarList_hash m1 as bs m' h2]
  | m, [], _ :: _, m', h => by simp [equalVarList] at h
  | m, _ :: _, [], m', h => by simp [equalVarList] at h

theorem equalFunction_hash (α : Bool) (m : AMap) (f g : Function) (m' : AMap)
    (h : equalFunction α m f g = some m') :
    hashFunction α f = hashFunction α g := by
  simp only [equalFunction] at h
  rw [Option.bind_eq_some] at h
  obtain ⟨m1, h1, h2⟩ := h
  split_ifs at h2 with hc
  obtain ⟨hr, hft⟩ := hc
  simp only [hashFunction]
  rw [equalVarList_hash m f.params g.params m1 h1, hr, hft,
    equalStmt_hash α m1 f.body g.body m' h2]

theorem buildOutputCreates_spec : ∀ (ps : List VarNode) (i : Nat),
    (∀ p ∈ ps, p.ty.isTensorTy = true) →
    ∃ builds, buildOutputCreates ps i = .ok builds ∧ builds.length = ps.length ∧
      ∀ (j : Nat) (pn : String) (sh : List Expr) (dt : DataType) (msp : MemorySpace), ps[j]? = some ⟨pn, .tensor sh dt msp⟩ →
        builds[j]? = some (.assign ⟨"out_" ++ toString (i + j), .tensor sh dt .DDR⟩
            (.call (.op "tensor.create") [makeShapeTuple sh] [("dtype", .dt dt)]
              (.tensor sh dt .DDR)),
          ⟨"out_" ++ toString (i + j), .tensor sh dt .DDR⟩)
  | [], i, _ => ⟨[], rfl, rfl, by intro j pn sh dt msp hj; simp at hj⟩
  | p :: ps, i, h => by
    obtain ⟨pn, pty⟩ := p
    cases hty : pty with
    | tensor sh dt msp =>
      obtain ⟨rest, hrest, hlen, hidx⟩ := buildOutputCreates_spec ps (i + 1)
        (fun q hq => h q (List.mem_cons_of_mem _ hq))
      subst hty
      refine ⟨(.assign ⟨"out_" ++ toString i, .tensor sh dt .DDR⟩
          (.call (.op "tensor.create") [makeShapeTuple sh] [("dtype", .dt dt)]
            (.tensor sh dt .DDR)),
          ⟨"out_" ++ toString i, .tensor sh dt .DDR⟩) :: rest, ?_, ?_, ?_⟩
      · simp only [buildOutputCreates]
        rw [show opCreate "tensor.create" [makeShapeTuple sh] [("dtype", .dt dt)] =
          .ok (.call (.op "tensor.create") [makeShapeTuple sh] [("dtype", .dt dt)]
            (.tensor sh dt .DDR)) from rfl, bind_ok, hrest, bind_ok]
        rfl
      · simp [hlen]
      · intro j qn qsh qdt qmsp hj
        cases j with
        | zero =>
          simp only [List.getElem?_cons_zero] at hj
          cases hj
          simp only [List.getElem?_cons_zero, Nat.add_zero]
        | succ j =>
          simp only [List.getElem?_cons_succ] at hj ⊢
          rw [show i + (j + 1) = i + 1 + j by omega]
          exact hidx j qn qsh qdt qmsp hj
    | scalar d =>
      have := h ⟨pn, pty⟩ (List.mem_cons_self _ _)
      rw [hty] at this
      exact absurd this (by simp [IRType.isTensorTy])
    | tile s d msp =>
      have := h ⟨pn, pty⟩ (List.mem_cons_self _ _)
      rw [hty] at this
      exact absurd this (by simp [IRType.isTensorTy])
    | tuple ts =>
      have := h ⟨pn, pty⟩ (List.mem_cons_self _ _)
      rw [hty] at this
      exact absurd this (by simp [IRType.isTensorTy])
    | void =>
      have := h ⟨pn, pty⟩ (List.mem_cons_self _ _)
      rw [hty] at this
      exact absurd this (by simp [IRType.isTensorTy])

/-! ## The claims -/

/-- C1: on S2's input, `TransformIncoreFunction` produces exactly the expected
function — params `[a, out_0]`, body `a_tile = block.load(a, (0,), (16,), UB);
t_tile = block.add(a_tile, a_tile); out_0 = block.store(t_tile, (0,), (16,),
out_0); return out_0` — and records one added output. -/
theorem convertTensorToBlockOps_simple_op_conversion :
    transformIncoreFunction defaultConvRegistry incoreFunF =
      .ok { func := incoreFunFExpected, numAddedOutputs := 1 } := rfl

/-- C2: at a top-level assignment whose (substituted) value calls a
transformed InCore function with `n > 0` added outputs, the call-site walk
emits one `out_i = tensor.create(make_tuple(shape), dtype=dtype)` per added
output parameter, appends the `out_i` variables in order to the argument
list, and gives the replacement call the return type computed as void / the
single type / a `TupleType`. -/
theorem updateCallSites_rewrite (ao : List (String × Nat)) (tf : List (String × Function))
    (st : CallSiteState) (v : VarNode) (value0 : Expr) (gname : String)
    (args : List Expr) (kwargs : List (String × AnyVal)) (rty : IRType)
    (n : Nat) (F : Function)
    (hsub : callSiteValue st value0 = .ok (.call (.globalVar gname) args kwargs rty))
    (hao : assocLookup ao gname = some n) (hn : n ≠ 0)
    (htf : assocLookup tf gname = some F)
    (houts : ∀ p ∈ F.params.drop (F.params.length - n), p.ty.isTensorTy = true) :
    ∃ builds,
      buildOutputCreates (F.params.drop (F.params.length - n)) 0 = .ok builds ∧
      builds.length = (F.params.drop (F.params.length - n)).length ∧
      (∀ (j : Nat) (pn : String) (sh : List Expr) (dt : DataType) (msp : MemorySpace),
        (F.params.drop (F.params.length - n))[j]? = some ⟨pn, .tensor sh dt msp⟩ →
        builds[j]? = some (.assign ⟨"out_" ++ toString j, .tensor sh dt .DDR⟩
            (.call (.op "tensor.create") [makeShapeTuple sh] [("dtype", .dt dt)]
              (.tensor sh dt .DDR)),
          ⟨"out_" ++ toString j, .tensor sh dt .DDR⟩)) ∧
      updateCallSitesStep ao tf st (.assign v value0) =
        .ok { newStmts := st.newStmts ++ builds.map Prod.fst ++
                [.assign ⟨v.name, (newCallReturnType F.returnTypes).getD .void⟩
                  (.call (.globalVar gname) (args ++ builds.map (fun b => b.2.toExpr)) kwargs
                    ((newCallReturnType F.returnTypes).getD .void))],
              varMap := assocInsert st.varMap v.name
                ⟨v.name, (newCallReturnType F.returnTypes).getD .void⟩,
              changed := true } ∧
      (F.returnTypes = [] → (newCallReturnType F.returnTypes).getD .void = .void) ∧
      (∀ t, F.returnTypes = [t] → newCallReturnType F.returnTypes = some t) ∧
      (2 ≤ F.returnTypes.length → newCallReturnType F.returnTypes = some (.tuple F.returnTypes)) := by
  obtain ⟨builds, hb, hlen, hidx⟩ :=
    buildOutputCreates_spec (F.params.drop (F.params.length - n)) 0 houts
  refine ⟨builds, hb, hlen, by simpa using hidx, ?_, ?_, ?_, ?_⟩
  · simp only [updateCallSitesStep, hsub, bind_ok, hao, if_neg hn, htf, hb]
  · intro h0; rw [h0]; rfl
  · intro t ht; rw [ht]; rfl
  · intro h2
    cases hF : F.returnTypes with
    | nil => rw [hF] at h2; simp at h2
    | cons a rest =>
      cases rest with
      | nil => rw [hF] at h2; simp at h2
      | cons b rest2 => rfl

theorem updateCallSites_rewrite_witness :
    updateCallSitesStep [("f", 1)] [("f", incoreFunFExpected)] callSiteState0
        (.assign varY (.call (.globalVar "f") [varX.toExpr] [] fp32TensorTy)) =
      .ok { newStmts :=
              [.assign varOut0 (.call (.op "tensor.create") [shapeTuple16]
                  [("dtype", .dt .FP32)] fp32TensorTy),
               .assign varY (.call (.globalVar "f") [varX.toExpr, varOut0.toExpr] []
                  fp32TensorTy)],
            varMap := [("y", varY)], changed := true } := by
  obtain ⟨builds, hb, _, _, hstep, _⟩ :=
    updateCallSites_rewrite [("f", 1)] [("f", incoreFunFExpected)] callSiteState0
      varY (.call (.globalVar "f") [varX.toExpr] [] fp32TensorTy) "f"
      [varX.toExpr] [] fp32TensorTy 1 incoreFunFExpected rfl rfl (by decide) rfl (by decide)
  have hb' : buildOutputCreates (incoreFunFExpected.params.drop
        (incoreFunFExpected.params.length - 1)) 0 =
      .ok [(.assign varOut0 (.call (.op "tensor.create") [shapeTuple16]
          [("dtype", .dt .FP32)] fp32TensorTy), varOut0)] := rfl
  rw [hb'] at hb
  cases hb
  rw [hstep]
  rfl

/-- C3 counterexample: `retainedOpProgram`'s InCore body contains a `Call`
whose op is not a GlobalVar, is registered with category `"TensorOp"`, and
has a conversion — yet the verifier appends no diagnostic, because the call
sits in a `ReturnStmt` and only `AssignStmt`/`EvalStmt` values are checked. -/
theorem incoreBlockOpsVerifier_nested_call_counterexample :
    (OpRef.op "tensor.add") ∈ callOpsStmt retainedOpFun.body ∧
    (OpRef.op "tensor.add").isGlobalVarRef = false ∧
    opCategory "tensor.add" = some "TensorOp" ∧
    hasConversion defaultConvRegistry "tensor.add" = true ∧
    retainedOpFun.funcType = .inCore ∧
    incoreBlockOpsVerify defaultConvRegistry retainedOpProgram [] = [] :=
  ⟨by decide, rfl, rfl, rfl, rfl, rfl⟩

/-- C3 (amended): the verifier flags every `Call` that is the direct value of
an `AssignStmt` or the expression of an `EvalStmt` anywhere in an InCore
function body, when its op is a registered `"TensorOp"` with a conversion;
it only appends to the caller's diagnostics (it is a total function — it
cannot throw), and inspects no non-InCore function. -/
theorem incoreBlockOpsVerifier_flags_direct_tensor_ops
    (convReg : ConvRegistry) (p : Program) (diags : List Diagnostic) :
    (∀ f ∈ p.functions, f.funcType = .inCore →
      ∀ s ∈ subStmts f.body, ∀ opName args kw rty entry,
        ((∃ v, s = .assign v (.call (.op opName) args kw rty)) ∨
          s = .eval (.call (.op opName) args kw rty)) →
        opRegistry opName = some entry → entry.category = "TensorOp" →
        hasConversion convReg opName = true →
        tensorOpDiagnostic opName ∈ incoreBlockOpsVerify convReg p diags) ∧
    incoreBlockOpsVerify convReg p diags = diags ++ incoreBlockOpsVerify convReg p [] ∧
    ((∀ f ∈ p.functions, f.funcType ≠ .inCore) →
      incoreBlockOpsVerify convReg p diags = diags) := by
  refine ⟨?_, ?_, ?_⟩
  · intro f hf hfc s hs opName args kw rty entry hform hreg hcat hconv
    have hown : tensorOpDiagnostic opName ∈ stmtOwnDiags convReg s := by
      rcases hform with ⟨v, rfl⟩ | rfl <;>
        simp [stmtOwnDiags, checkStmtValue, checkTensorOp, hreg, hcat, hconv]
    have hvisit := stmtOwnDiags_mem_visit convReg f.body s hs _ hown
    rw [incoreBlockOpsVerify]
    refine List.mem_append_right _ ?_
    rw [List.mem_flatMap]
    exact ⟨f, hf, by simpa [incoreBlockOpsCollectFn, hfc] using hvisit⟩
  · rw [incoreBlockOpsVerify, incoreBlockOpsVerify, List.nil_append]
  · intro h
    rw [incoreBlockOpsVerify]
    have hnil : p.functions.flatMap (incoreBlockOpsCollectFn convReg) = [] := by
      rw [List.flatMap_eq_nil_iff]
      intro f hf
      simp [incoreBlockOpsCollectFn, h f hf]
    simp [hnil]

theorem incoreBlockOpsVerifier_flags_direct_tensor_ops_witness :
    tensorOpDiagnostic "tensor.add" ∈
      incoreBlockOpsVerify defaultConvRegistry unconvertedProgram [] :=
  (incoreBlockOpsVerifier_flags_direct_tensor_ops defaultConvRegistry
      unconvertedProgram []).1 incoreFunF (by decide) rfl
    (.assign varT (.call (.op "tensor.add") [varA.toExpr, varA.toExpr] [] fp32TensorTy))
    (by decide) "tensor.add" [varA.toExpr, varA.toExpr] [] fp32TensorTy
    ⟨"TensorOp", inferFirstArg⟩ (Or.inl ⟨varT, rfl⟩) rfl rfl rfl

/-- C4: an InCore function with a flat body ending in its return, no
`TensorType` parameters, no assigned op call with a registered conversion,
no tile-typed return value, and declared return types matching the returned
expressions' types (invariant I4) is returned unchanged, with zero added
outputs. -/
theorem transformIncoreFunction_no_tensor_noop (convReg : ConvRegistry) (f : Function)
    (stmts : List Stmt) (vals : List Expr)
    (hft : f.funcType = .inCore)
    (hbody : f.body = .seq (stmts ++ [.ret vals]))
    (hparams : ∀ p ∈ f.params, p.ty.isTensorTy = false)
    (hstmts : ∀ s ∈ stmts, (∀ vs, s ≠ .ret vs) ∧
      (∀ v op args kw rty, s = .assign v (.call (.op op) args kw rty) →
        convLookup convReg op = none))
    (hvals : ∀ v ∈ vals, v.getType.isTileTy = false)
    (hrt : Expr.getTypeList vals = f.returnTypes) :
    transformIncoreFunction convReg f = .ok { func := f, numAddedOutputs := 0 } := by
  rw [transformIncoreFunction, foldLoads_no_tensor f.params [] [] hparams, bind_ok, hbody]
  rw [show flattenBody (.seq (stmts ++ [.ret vals])) = stmts ++ [.ret vals] from rfl]
  rw [foldBody_no_conversion convReg vals stmts
    { newStmts := [], tensorToTile := [], returnValues := none } rfl hstmts, bind_ok]
  simp only []
  rw [foldEpilogue_no_tile f.returnTypes vals
    { newStmts := [] ++ stmts, newParams := f.params, newReturnTypes := [],
      newReturnExprs := [], numAddedOutputs := 0, index := 0 } hvals, bind_ok]
  simp only [List.nil_append, hrt]
  rw [← hft, ← hbody]

theorem transformIncoreFunction_no_tensor_noop_witness :
    transformIncoreFunction defaultConvRegistry
      { name := "k", params := [⟨"n", .scalar .INT32⟩], returnTypes := [.scalar .INT32],
        body := .seq [.assign ⟨"m", .scalar .INT32⟩ (.call (.op "opaque.g")
            [.var "n" (.scalar .INT32)] [] (.scalar .INT32)),
          .ret [.var "m" (.scalar .INT32)]], funcType := .inCore } =
      .ok { func := { name := "k", params := [⟨"n", .scalar .INT32⟩],
                      returnTypes := [.scalar .INT32],
                      body := .seq [.assign ⟨"m", .scalar .INT32⟩ (.call (.op "opaque.g")
                          [.var "n" (.scalar .INT32)] [] (.scalar .INT32)),
                        .ret [.var "m" (.scalar .INT32)]], funcType := .inCore },
            numAddedOutputs := 0 } :=
  transformIncoreFunction_no_tensor_noop defaultConvRegistry _
    [.assign ⟨"m", .scalar .INT32⟩ (.call (.op "opaque.g")
        [.var "n" (.scalar .INT32)] [] (.scalar .INT32))]
    [.var "m" (.scalar .INT32)] rfl rfl (by decide)
    (by
      intro s hs
      simp only [List.mem_singleton] at hs
      subst hs
      constructor
      · intro vs
        simp
      · intro v op args kw rty heq
        cases heq
        rfl)
    (by decide) rfl

/-- C5: for all IR nodes and either value of the auto-mapping flag,
structural equality implies equal structural hashes. -/
theorem structuralEqual_implies_structuralHash (a b : IRNode) (autoMap : Bool)
    (h : structuralEqual a b autoMap = true) :
    structuralHash a autoMap = structuralHash b autoMap := by
  cases a with
  | expr e1 =>
    cases b with
    | expr e2 =>
      simp only [structuralEqual, Option.isSome_iff_exists] at h
      obtain ⟨m', hm⟩ := h
      exact equalExpr_hash autoMap [] e1 e2 m' hm
    | stmt _ => simp [structuralEqual] at h
    | func _ => simp [structuralEqual] at h
  | stmt s1 =>
    cases b with
    | expr _ => simp [structuralEqual] at h
    | stmt s2 =>
      simp only [structuralEqual, Option.isSome_iff_exists] at h
      obtain ⟨m', hm⟩ := h
      exact equalStmt_hash autoMap [] s1 s2 m' hm
    | func _ => simp [structuralEqual] at h
  | func f1 =>
    cases b with
    | expr _ => simp [structuralEqual] at h
    | stmt _ => simp [structuralEqual] at h
    | func f2 =>
      simp only [structuralEqual, Option.isSome_iff_exists] at h
      obtain ⟨m', hm⟩ := h
      exact equalFunction_hash autoMap [] f1 f2 m' hm

theorem structuralEqual_implies_structuralHash_witness :
    structuralEqual
        (.expr (.binary .add (.var "x" (.scalar .INT64)) (.constInt 1 .INT64) .INT64))
        (.expr (.binary .add (.var "y" (.scalar .INT64)) (.constInt 1 .INT64) .INT64))
        true = true ∧
    structuralHash
        (.expr (.binary .add (.var "x" (.scalar .INT64)) (.constInt 1 .INT64) .INT64)) true =
      structuralHash
        (.expr (.binary .add (.var "y" (.scalar .INT64)) (.constInt 1 .INT64) .INT64)) true :=
  ⟨by decide, structuralEqual_implies_structuralHash _ _ true (by decide)⟩

set_option maxHeartbeats 1000000 in
/-- C6: right after construction, the op-conversion registry has a
conversion for exactly the thirteen baseline names, each a simple mapping to
the corresponding `block.*` op, and `Lookup` yields none for any other name. -/
theorem opConversionRegistry_initial_contents (name : String) :
    (hasConversion defaultConvRegistry name = true ↔ name ∈ baselineConvertibleOps) ∧
    convLookup defaultConvRegistry name =
      (if "tensor.add" = name then some (.simple "block.add")
       else if "tensor.sub" = name then some (.simple "block.sub")
       else if "tensor.mul" = name then some (.simple "block.mul")
       else if "tensor.div" = name then some (.simple "block.div")
       else if "tensor.maximum" = name then some (.simple "block.maximum")
       else if "tensor.add_scalar" = name then some (.simple "block.adds")
       else if "tensor.sub_scalar" = name then some (.simple "block.subs")
       else if "tensor.mul_scalar" = name then some (.simple "block.muls")
       else if "tensor.div_scalar" = name then some (.simple "block.divs")
       else if "tensor.exp" = name then some (.simple "block.exp")
       else if "tensor.cast" = name then some (.simple "block.cast")
       else if "tensor.reshape" = name then some (.simple "block.reshape")
       else if "tensor.transpose" = name then some (.simple "block.transpose")
       else none) := by
  have hlook : convLookup defaultConvRegistry name =
      (if "tensor.add" = name then some (.simple "block.add")
       else if "tensor.sub" = name then some (.simple "block.sub")
       else if "tensor.mul" = name then some (.simple "block.mul")
       else if "tensor.div" = name then some (.simple "block.div")
       else if "tensor.maximum" = name then some (.simple "block.maximum")
       else if "tensor.add_scalar" = name then some (.simple "block.adds")
       else if "tensor.sub_scalar" = name then some (.simple "block.subs")
       else if "tensor.mul_scalar" = name then some (.simple "block.muls")
       else if "tensor.div_scalar" = name then some (.simple "block.divs")
       else if "tensor.exp" = name then some (.simple "block.exp")
       else if "tensor.cast" = name then some (.simple "block.cast")
       else if "tensor.reshape" = name then some (.simple "block.reshape")
       else if "tensor.transpose" = name then some (.simple "block.transpose")
       else none) := by
    simp only [convLookup, defaultConvRegistry_eq, assocLookup]
  refine ⟨?_, hlook⟩
  have hmem : ∀ (l : List (String × ConversionFunc)) (nm : String),
      (assocLookup l nm).isSome = true ↔ nm ∈ l.map Prod.fst := by
    intro l nm
    induction l with
    | nil => simp [assocLookup]
    | cons hd tl ih =>
      obtain ⟨k, v⟩ := hd
      by_cases hk : k = nm
      · subst hk; simp [assocLookup]
      · have hk' : ¬(nm = k) := fun h => hk h.symm
        simp [assocLookup, hk, List.mem_cons, hk', ih]
  have hnames : defaultConvRegistry.map Prod.fst = baselineConvertibleOps := by
    rw [defaultConvRegistry_eq]; rfl
  rw [hasConversion, show convLookup defaultConvRegistry name =
    assocLookup defaultConvRegistry name from rfl, hmem, hnames]

/-- C7: registering over an existing name (simple or custom) replaces the
previous rule without error — a subsequent `Lookup` yields the most recent
rule and other names are untouched — and `RegisterSimple`'s synthesized rule
returns an empty prologue around the `Call` built by `OpRegistry::Create`. -/
theorem opConversionRegistry_override (reg : ConvRegistry) (n n' toOp : String)
    (g : List Expr → List (String × AnyVal) → Except String ConversionResult)
    (args : List Expr) (kwargs : List (String × AnyVal)) (hne : n' ≠ n) :
    convLookup (registerSimple reg n toOp) n = some (.simple toOp) ∧
    convLookup (registerCustom reg n g) n = some (.custom g) ∧
    convLookup (registerSimple reg n toOp) n' = convLookup reg n' ∧
    convLookup (registerCustom reg n g) n' = convLookup reg n' ∧
    ConversionFunc.apply (.simple toOp) args kwargs =
      (opCreate toOp args kwargs).map (fun c => { prologue := [], result := c }) := by
  have hne' : ¬(n = n') := fun h => hne h.symm
  have hins : ∀ (r : ConvRegistry) (f : ConversionFunc),
      convLookup (assocInsert r n f) n = some f := by
    intro r f
    induction r with
    | nil => simp [assocInsert, convLookup, assocLookup]
    | cons hd tl ih =>
      obtain ⟨k, v⟩ := hd
      by_cases hk : k = n
      · subst hk; simp [assocInsert, convLookup, assocLookup]
      · simpa [assocInsert, if_neg hk, convLookup, assocLookup, hk] using ih
  have hpres : ∀ (r : ConvRegistry) (f : ConversionFunc),
      convLookup (assocInsert r n f) n' = convLookup r n' := by
    intro r f
    induction r with
    | nil => simp [assocInsert, convLookup, assocLookup, hne']
    | cons hd tl ih =>
      obtain ⟨k, v⟩ := hd
      by_cases hk : k = n
      · subst hk
        simp [assocInsert, convLookup, assocLookup, hne']
      · simp only [assocInsert, if_neg hk, convLookup, assocLookup] at ih ⊢
        by_cases hk' : k = n'
        · simp [hk']
        · simpa [hk'] using ih
  refine ⟨hins reg _, hins reg _, hpres reg _, hpres reg _, ?_⟩
  cases kwargs with
  | nil => rfl
  | cons hd tl => rfl

theorem opConversionRegistry_override_witness :
    convLookup (registerSimple defaultConvRegistry "tensor.add" "block.other") "tensor.add" =
      some (.simple "block.other") ∧
    convLookup (registerSimple defaultConvRegistry "tensor.add" "block.other") "tensor.sub" =
      convLookup defaultConvRegistry "tensor.sub" := by
  have h := opConversionRegistry_override defaultConvRegistry "tensor.add" "tensor.sub"
    "block.other" (fun _ _ => .error "unused") [] [] (by decide)
  exact ⟨h.1, h.2.2.1⟩

/-- C8: `SubstituteExpr` on `BinaryExpr`/`UnaryExpr` returns the node
unchanged when no variable of its operands is a key of the map, aborts with
the internal-check failure when an operand would change, and never rebuilds
a `BinaryExpr`/`UnaryExpr`. -/
theorem substExpr_scalar_operands_guard (m : VarMap) (k : BinKind) (u : UnKind)
    (l r o : Expr) (d : DataType) :
    ((∀ nm ∈ varNamesExpr l ++ varNamesExpr r, assocLookup m nm = none) →
        substExpr m (.binary k l r d) = .ok (.binary k l r d)) ∧
    ((∀ nm ∈ varNamesExpr o, assocLookup m nm = none) →
        substExpr m (.unary u o d) = .ok (.unary u o d)) ∧
    (∀ l' r', substExpr m l = .ok l' → substExpr m r = .ok r' → (l' ≠ l ∨ r' ≠ r) →
        substExpr m (.binary k l r d) =
          .error "Internal error: BinaryExpr operand substitution not supported") ∧
    (∀ o', substExpr m o = .ok o' → o' ≠ o →
        substExpr m (.unary u o d) =
          .error "Internal error: UnaryExpr operand substitution not supported") ∧
    (∀ e', substExpr m (.binary k l r d) = .ok e' → e' = .binary k l r d) ∧
    (∀ e', substExpr m (.unary u o d) = .ok e' → e' = .unary u o d) := by
  refine ⟨?_, ?_, ?_, ?_, ?_, ?_⟩
  · intro h
    exact substExpr_notMem m _ (by simpa [varNamesExpr] using h)
  · intro h
    exact substExpr_notMem m _ (by simpa [varNamesExpr] using h)
  · intro l' r' hl hr hne
    have hcond : ¬(l' = l ∧ r' = r) := by tauto
    simp [substExpr, hl, hr, bind_ok, hcond]
  · intro o' ho hne
    simp [substExpr, ho, bind_ok, hne]
  · intro e' h
    simp only [substExpr] at h
    cases hl : substExpr m l with
    | error e => rw [hl, bind_error] at h; exact absurd h (by simp)
    | ok l' =>
      rw [hl, bind_ok] at h
      cases hr : substExpr m r with
      | error e => rw [hr, bind_error] at h; exact absurd h (by simp)
      | ok r' =>
        rw [hr, bind_ok] at h
        split at h
        · exact (Except.ok.inj h).symm
        · exact absurd h (by simp)
  · intro e' h
    simp only [substExpr] at h
    cases ho : substExpr m o with
    | error e => rw [ho, bind_error] at h; exact absurd h (by simp)
    | ok o' =>
      rw [ho, bind_ok] at h
      split at h
      · exact (Except.ok.inj h).symm
      · exact absurd h (by simp)

theorem substExpr_scalar_operands_guard_witness :
    substExpr [("x", ⟨"y", .scalar .INT64⟩)]
        (.binary .add (.var "z" (.scalar .INT64)) (.constInt 1 .INT64) .INT64) =
      .ok (.binary .add (.var "z" (.scalar .INT64)) (.constInt 1 .INT64) .INT64) ∧
    substExpr [("x", ⟨"y", .scalar .INT64⟩)]
        (.binary .add (.var "x" (.scalar .INT64)) (.constInt 1 .INT64) .INT64) =
      .error "Internal error: BinaryExpr operand substitution not supported" := by
  constructor
  · exact (substExpr_scalar_operands_guard _ .add .abs _ _
      (.var "z" (.scalar .INT64)) .INT64).1 (by decide)
  · exact (substExpr_scalar_operands_guard _ .add .abs
      (.var "x" (.scalar .INT64)) (.constInt 1 .INT64) (.var "x" (.scalar .INT64)) .INT64).2.2.1
      (.var "y" (.scalar .INT64)) (.constInt 1 .INT64) rfl rfl
      (Or.inl (by decide))

/-- C9: an InCore function whose flattened body has no `ReturnStmt` makes
`TransformIncoreFunction` abort (when the load prologue and the body walk
themselves succeed, with exactly the "no return statement" internal check);
and every function it does produce ends with the rebuilt `ReturnStmt` as the
last statement of the new `SeqStmts` body. -/
theorem transformIncoreFunction_return_required (convReg : ConvRegistry) (f : Function) :
    ((∀ vs, Stmt.ret vs ∉ flattenBody f.body) →
      ∃ msg, transformIncoreFunction convReg f = .error msg) ∧
    ((∀ vs, Stmt.ret vs ∉ flattenBody f.body) →
      ∀ loads st, f.params.foldlM incoreLoadStep ([], []) = .ok loads →
        List.foldlM (incoreBodyStep convReg)
          { newStmts := loads.1, tensorToTile := loads.2, returnValues := none }
          (flattenBody f.body) = .ok st →
        transformIncoreFunction convReg f =
          .error "Internal error: InCore function has no return statement") ∧
    (∀ r, transformIncoreFunction convReg f = .ok r →
      ∃ ss vs, r.func.body = .seq (ss ++ [.ret vs])) := by
  refine ⟨?_, ?_, ?_⟩
  · intro hnr
    rw [transformIncoreFunction]
    cases hl : f.params.foldlM incoreLoadStep ([], []) with
    | error e => exact ⟨e, by rw [bind_error]⟩
    | ok loads =>
      rw [bind_ok]
      cases hb : List.foldlM (incoreBodyStep convReg)
          { newStmts := loads.1, tensorToTile := loads.2, returnValues := none }
          (flattenBody f.body) with
      | error e => exact ⟨e, by rw [bind_error]⟩
      | ok st =>
        rw [bind_ok]
        have : st.returnValues = none :=
          foldBody_ok_returnValues convReg (flattenBody f.body) _ st
            (fun s hs vs heq => hnr vs (heq ▸ hs)) hb
        simp only [this]
        exact ⟨_, rfl⟩
  · intro hnr loads st hl hb
    rw [transformIncoreFunction, hl, bind_ok, hb, bind_ok]
    have : st.returnValues = none :=
      foldBody_ok_returnValues convReg (flattenBody f.body) _ st
        (fun s hs vs heq => hnr vs (heq ▸ hs)) hb
    simp only [this]
  · intro r h
    rw [transformIncoreFunction] at h
    cases hl : f.params.foldlM incoreLoadStep ([], []) with
    | error e => rw [hl, bind_error] at h; exact absurd h (by simp)
    | ok loads =>
      rw [hl, bind_ok] at h
      cases hb : List.foldlM (incoreBodyStep convReg)
          { newStmts := loads.1, tensorToTile := loads.2, returnValues := none }
          (flattenBody f.body) with
      | error e => rw [hb, bind_error] at h; exact absurd h (by simp)
      | ok st =>
        rw [hb, bind_ok] at h
        cases hrv : st.returnValues with
        | none => simp only [hrv] at h; exact absurd h (by simp)
        | some vals =>
          simp only [hrv] at h
          cases hep : List.foldlM (incoreReturnStep f.returnTypes st.tensorToTile)
              { newStmts := st.newStmts, newParams := f.params, newReturnTypes := [],
                newReturnExprs := [], numAddedOutputs := 0, index := 0 } vals with
          | error e => simp only [hep, bind_error] at h; exact absurd h (by simp)
          | ok ep =>
            simp only [hep, bind_ok] at h
            cases h
            exact ⟨ep.newStmts, ep.newReturnExprs, rfl⟩

theorem transformIncoreFunction_return_required_witness :
    transformIncoreFunction defaultConvRegistry noReturnFun =
      .error "Internal error: InCore function has no return statement" :=
  (transformIncoreFunction_return_required defaultConvRegistry noReturnFun).2.1
    (by intro vs hv; simp [noReturnFun, flattenBody] at hv) _ _ rfl rfl

/-- C10: the identity pass maps every function of the program, appending
`"_identity"` to its name while leaving the parameter list, return types and
body untouched (hence structurally equal with auto-mapping off). -/
theorem identityPass_renames_preserving_structure (p : Program) (f : Function)
    (hf : f ∈ p.functions) :
    (identityPass p).functions = p.functions.map identityTransform ∧
    identityTransform f ∈ (identityPass p).functions ∧
    (identityTransform f).name = f.name ++ "_identity" ∧
    (identityTransform f).params = f.params ∧
    (identityTransform f).returnTypes = f.returnTypes ∧
    (identityTransform f).body = f.body ∧
    structuralEqual (.stmt (identityTransform f).body) (.stmt f.body) false = true := by
  refine ⟨rfl, ?_, rfl, rfl, rfl, rfl, ?_⟩
  · exact List.mem_map_of_mem identityTransform hf
  · show (equalStmt false [] f.body f.body).isSome = true
    rw [equalStmt_refl]
    rfl

theorem identityPass_renames_preserving_structure_witness :
    (identityPass fooProgram).functions = fooProgram.functions.map identityTransform ∧
    (identityTransform fooFun).name = "foo" ++ "_identity" ∧
    structuralEqual (.stmt (identityTransform fooFun).body) (.stmt fooFun.body) false = true := by
  have h := identityPass_renames_preserving_structure fooProgram fooFun (by decide)
  exact ⟨h.1, h.2.2.1, h.2.2.2.2.2.2⟩

end PyPTO
